import Mathlib

/-!
# Verification of the external-ips reconciliation engines

A shallow embedding of the diff/plan machinery of the `openfresh/external-ips`
controller: the firewall plan engine (`firewall/plan`), the service-external-IP
plan engine (`extip/plan`), the DNS plan engine (`dns/plan`), the TXT-ownership
registry (`dns/registry`), the service source aggregator (`source`), the
controller loop (`controller`) and the ExtIP provider (`extip/provider`).

Go maps are embedded as insertion-ordered association lists; Go's unspecified
map iteration order is fixed to first-insertion order, which is sound for the
membership and emptiness properties proved here.  Fallible Go functions are
embedded with `Option` results (`none` = error).
-/

/-- Go `map[string]string` label bags, embedded as association lists
(first matching key wins on lookup; `setLabel` overwrites in place). -/
abbrev Labels := List (String × String)

/-- Go map indexing `m[k]`: the zero value `""` when the key is absent. -/
def lookupLabel (m : Labels) (k : String) : String :=
  match m with
  | [] => ""
  | (k', v) :: rest => if k' = k then v else lookupLabel rest k

/-- Go map assignment `m[k] = v`. -/
def setLabel (m : Labels) (k v : String) : Labels :=
  match m with
  | [] => [(k, v)]
  | (k', v') :: rest => if k' = k then (k', v) :: rest else (k', v') :: setLabel rest k v

theorem lookupLabel_setLabel_self (m : Labels) (k v : String) :
    lookupLabel (setLabel m k v) k = v := by
  induction m with
  | nil => simp [setLabel, lookupLabel]
  | cons p rest ih =>
    by_cases h : p.1 = k
    · simp [setLabel, lookupLabel, h]
    · simp [setLabel, lookupLabel, h, ih]

/-! ## Character-level string helpers

Kernel-reducible embeddings of the Go string operations used by the sources
(`strings.ToLower`, `strings.TrimSpace`, `strings.Split`, lexicographic
comparison), implemented over the character list of a string. -/

/-- Embeds `strings.ToLower` (ASCII case folding suffices for the names involved). -/
def toLowerStr (s : String) : String := ⟨s.data.map Char.toLower⟩

def isWS (c : Char) : Bool := c == ' ' || c == '\t' || c == '\n' || c == '\r'

/-- Embeds `strings.TrimSpace`. -/
def trimStr (s : String) : String :=
  ⟨((s.data.dropWhile isWS).reverse.dropWhile isWS).reverse⟩

/-- Lexicographic strict order on character lists (Go string `<`). -/
def lexLtChars : List Char → List Char → Bool
  | [], [] => false
  | [], _ :: _ => true
  | _ :: _, [] => false
  | a :: as, b :: bs =>
    if a.toNat < b.toNat then true else if b.toNat < a.toNat then false else lexLtChars as bs

def lexLt (a b : String) : Bool := lexLtChars a.data b.data

def lexLe (a b : String) : Bool := lexLt a b || a == b

/-- Embeds `strings.Split` with a one-character separator. -/
def splitChars (sep : Char) : List Char → List (List Char)
  | [] => [[]]
  | c :: rest =>
    if c == sep then [] :: splitChars sep rest
    else
      match splitChars sep rest with
      | g :: gs => (c :: g) :: gs
      | [] => [[c]]

def splitOnChar (sep : Char) (s : String) : List String :=
  (splitChars sep s.data).map (fun l => ⟨l⟩)

def isPrefixChars : List Char → List Char → Bool
  | [], _ => true
  | _ :: _, [] => false
  | a :: as, b :: bs => a == b && isPrefixChars as bs

/-- Embeds `strings.HasPrefix`. -/
def strHasPrefix (pre s : String) : Bool := isPrefixChars pre.data s.data

/-- Embeds `strings.TrimPrefix`. -/
def strTrimPrefix (pre s : String) : String :=
  if strHasPrefix pre s then ⟨s.data.drop pre.data.length⟩ else s

/-- Embeds `strings.HasSuffix`. -/
def strHasSuffix (suf s : String) : Bool := isPrefixChars suf.data.reverse s.data.reverse

/-- Embeds `strings.TrimSuffix`. -/
def strTrimSuffix (suf s : String) : String :=
  if strHasSuffix suf s then ⟨s.data.take (s.data.length - suf.data.length)⟩ else s

/-- The least string of a list under `lexLe` (first occurrence wins ties). -/
def minString (l : List String) : Option String :=
  match l with
  | [] => none
  | x :: xs => some (xs.foldl (fun m s => if lexLe s m then s else m) x)

/-! ## Generic association tables

All three plan engines key their `planTable` by a string (`dnsName`,
rule-set `Name`, `SvcName`, or `ProviderID+RulesName`) and mutate the row in
place, creating an empty row when the key is new.  `assocUpd` is that shared
access pattern. -/

/-- Embeds `t.rows[k]` creation-and-mutation: if `k` is absent a default row `d` is
created first; then the row is replaced by `f row`. -/
def assocUpd {ρ : Type} (t : List (String × ρ)) (k : String) (d : ρ) (f : ρ → ρ) :
    List (String × ρ) :=
  match t with
  | [] => [(k, f d)]
  | (k', r) :: rest => if k' = k then (k', f r) :: rest else (k', r) :: assocUpd rest k d f

def assocLookup {ρ : Type} (t : List (String × ρ)) (k : String) : Option ρ :=
  match t with
  | [] => none
  | (k', r) :: rest => if k' = k then some r else assocLookup rest k

def keysOf {ρ : Type} (t : List (String × ρ)) : List String := t.map Prod.fst

theorem assocLookup_upd_self {ρ : Type} (t : List (String × ρ)) (k : String) (d : ρ) (f : ρ → ρ) :
    assocLookup (assocUpd t k d f) k = some (f ((assocLookup t k).getD d)) := by
  induction t with
  | nil => simp [assocUpd, assocLookup]
  | cons p rest ih =>
    by_cases h : p.1 = k
    · simp [assocUpd, assocLookup, h]
    · simp [assocUpd, assocLookup, h, ih]

theorem assocLookup_upd_ne {ρ : Type} (t : List (String × ρ)) (k k' : String) (d : ρ)
    (f : ρ → ρ) (h : k ≠ k') : assocLookup (assocUpd t k d f) k' = assocLookup t k' := by
  induction t with
  | nil => simp [assocUpd, assocLookup, h]
  | cons p rest ih =>
    by_cases hp : p.1 = k
    · subst hp
      simp [assocUpd, assocLookup, h]
    · simp [assocUpd, assocLookup, hp, ih]

theorem keysOf_upd {ρ : Type} (t : List (String × ρ)) (k : String) (d : ρ) (f : ρ → ρ) :
    keysOf (assocUpd t k d f) = if k ∈ keysOf t then keysOf t else keysOf t ++ [k] := by
  induction t with
  | nil => simp [assocUpd, keysOf]
  | cons p rest ih =>
    obtain ⟨pk, pv⟩ := p
    by_cases h : pk = k
    · simp [assocUpd, keysOf, h]
    · have hne : k ≠ pk := fun he => h he.symm
      simp only [assocUpd, if_neg h, keysOf, List.map_cons, List.mem_cons]
      rw [keysOf] at ih
      rw [ih]
      by_cases hk : k ∈ List.map Prod.fst rest
      · simp [keysOf, hk, hne]
      · simp [keysOf, hk, hne]

theorem nodup_keys_upd {ρ : Type} (t : List (String × ρ)) (k : String) (d : ρ) (f : ρ → ρ)
    (h : (keysOf t).Nodup) : (keysOf (assocUpd t k d f)).Nodup := by
  rw [keysOf_upd]
  by_cases hk : k ∈ keysOf t
  · simpa [hk] using h
  · simp only [hk, if_false]
    rw [List.nodup_append]
    exact ⟨h, List.nodup_singleton k, by simpa using hk⟩

theorem assocLookup_eq_some_of_mem {ρ : Type} (t : List (String × ρ)) (k : String) (r : ρ)
    (hnd : (keysOf t).Nodup) (h : (k, r) ∈ t) : assocLookup t k = some r := by
  induction t with
  | nil => cases h
  | cons p rest ih =>
    obtain ⟨pk, pv⟩ := p
    rw [keysOf, List.map_cons, List.nodup_cons] at hnd
    rcases List.mem_cons.mp h with h | h
    · rw [assocLookup]
      have hk : pk = k := (congrArg Prod.fst h).symm
      have hv : pv = r := (congrArg Prod.snd h).symm
      simp [hk, hv]
    · have hk : pk ≠ k := by
        intro he
        have : k ∈ keysOf rest := List.mem_map_of_mem Prod.fst h
        exact hnd.1 (he ▸ this)
      rw [assocLookup, if_neg hk]
      exact ih hnd.2 h

theorem mem_of_assocLookup_eq_some {ρ : Type} (t : List (String × ρ)) (k : String) (r : ρ)
    (h : assocLookup t k = some r) : (k, r) ∈ t := by
  induction t with
  | nil => simp [assocLookup] at h
  | cons p rest ih =>
    obtain ⟨pk, pv⟩ := p
    by_cases hp : pk = k
    · rw [assocLookup, if_pos hp] at h
      injection h with h
      exact List.mem_cons.mpr (Or.inl (by rw [← hp, ← h]))
    · rw [assocLookup, if_neg hp] at h
      exact List.mem_cons_of_mem _ (ih h)

/-- Looking a key up after a fold of `assocUpd`s collapses to a fold over
the updates whose key matches. -/
theorem assocLookup_foldl_upd {α ρ : Type} (κ : α → String) (d : ρ) (f : α → ρ → ρ)
    (L : List α) (t : List (String × ρ)) (k : String) :
    assocLookup (L.foldl (fun t e => assocUpd t (κ e) d (f e)) t) k =
      (L.filter (fun e => κ e == k)).foldl
        (fun r e => some (f e (r.getD d))) (assocLookup t k) := by
  induction L generalizing t with
  | nil => rfl
  | cons e L ih =>
    by_cases h : κ e = k
    · rw [List.foldl_cons, List.filter_cons]
      simp only [h, beq_self_eq_true, if_pos]
      rw [ih, ← h, assocLookup_upd_self, List.foldl_cons]
    · rw [List.foldl_cons, List.filter_cons]
      have hb : (κ e == k) = false := beq_eq_false_iff_ne.mpr h
      simp only [hb, Bool.false_eq_true, if_false]
      rw [ih, assocLookup_upd_ne _ _ _ _ _ h]

theorem nodup_keys_foldl_upd {α ρ : Type} (κ : α → String) (d : ρ) (f : α → ρ → ρ)
    (L : List α) (t : List (String × ρ)) (h : (keysOf t).Nodup) :
    (keysOf (L.foldl (fun t e => assocUpd t (κ e) d (f e)) t)).Nodup := by
  induction L generalizing t with
  | nil => exact h
  | cons e L ih => exact ih _ (nodup_keys_upd _ _ _ _ h)

/-! ## Firewall value types (`firewall/inbound/inbound.go`) -/

structure InboundRule where
  protocol : String
  port : Int
deriving DecidableEq, Repr

structure InboundRules where
  name : String
  rules : List InboundRule
  providerIDs : List String
deriving DecidableEq, Repr

/-- Embeds `InboundRules.Same` from `inbound.go`: length guard, then element-wise
comparison of protocol and port.  `providerIDs` are not compared. -/
def InboundRules.Same (ir o : InboundRules) : Bool :=
  if ir.rules.length ≠ o.rules.length then false
  else (ir.rules.zip o.rules).all fun p => p.1.protocol == p.2.protocol && p.1.port == p.2.port

theorem InboundRules.Same_self (ir : InboundRules) : ir.Same ir = true := by
  rw [InboundRules.Same, if_neg (by simp)]
  induction ir.rules with
  | nil => rfl
  | cons r rs ih => simpa using ih

/-! ## Generic two-sided plan tables

The firewall rule-set table, the firewall binding table and the ExtIP table
all hold rows `{current, candidate}` with both sides optional and overwritten
on repeated insertion.  A row is embedded as a pair `(current, candidate)`. -/

/-- A `planTableRow` with optional current (`.1`) and candidate (`.2`). -/
abbrev PairRow (α : Type) := Option α × Option α

def pairAddCur {α : Type} (key : α → String) (t : List (String × PairRow α)) (e : α) :
    List (String × PairRow α) :=
  assocUpd t (key e) (none, none) (fun r => (some e, r.2))

def pairAddCand {α : Type} (key : α → String) (t : List (String × PairRow α)) (e : α) :
    List (String × PairRow α) :=
  assocUpd t (key e) (none, none) (fun r => (r.1, some e))

/-- The table built by a `Calculate` pass: all currents, then all candidates. -/
def pairBuild {α : Type} (key : α → String) (cur des : List α) : List (String × PairRow α) :=
  des.foldl (pairAddCand key) (cur.foldl (pairAddCur key) [])

theorem foldl_pair_setfst {α : Type} (F : List α) (init : Option (PairRow α)) :
    F.foldl (fun r e => some ((some e, (r.getD (none, none)).2) : PairRow α)) init =
      match F.getLast? with
      | none => init
      | some e => some (some e, (init.getD (none, none)).2) := by
  induction F generalizing init with
  | nil => rfl
  | cons e F ih =>
    rw [List.foldl_cons, ih]
    cases F with
    | nil => rfl
    | cons f F =>
      rw [List.getLast?_cons_cons]
      cases hgl : (f :: F).getLast? with
      | none => exact (List.cons_ne_nil f F (List.getLast?_eq_none_iff.mp hgl)).elim
      | some x => rfl

theorem foldl_pair_setsnd {α : Type} (G : List α) (init : Option (PairRow α)) :
    G.foldl (fun r e => some (((r.getD (none, none)).1, some e) : PairRow α)) init =
      match G.getLast? with
      | none => init
      | some e => some ((init.getD (none, none)).1, some e) := by
  induction G generalizing init with
  | nil => rfl
  | cons e G ih =>
    rw [List.foldl_cons, ih]
    cases G with
    | nil => rfl
    | cons g G =>
      rw [List.getLast?_cons_cons]
      cases hgl : (g :: G).getLast? with
      | none => exact (List.cons_ne_nil g G (List.getLast?_eq_none_iff.mp hgl)).elim
      | some x => rfl

theorem pairBuild_lookup {α : Type} (key : α → String) (cur des : List α) (k : String) :
    assocLookup (pairBuild key cur des) k =
      (if ((cur.filter (fun e => key e == k)).getLast?).isNone ∧
          ((des.filter (fun e => key e == k)).getLast?).isNone then none
       else some ((cur.filter (fun e => key e == k)).getLast?,
                  (des.filter (fun e => key e == k)).getLast?)) := by
  rw [pairBuild]
  have h1 : assocLookup (cur.foldl (pairAddCur key) []) k =
      match (cur.filter (fun e => key e == k)).getLast? with
      | none => none
      | some e => some ((some e, none) : PairRow α) := by
    rw [show cur.foldl (pairAddCur key) [] =
        cur.foldl (fun t e => assocUpd t (key e) (none, none) (fun r => (some e, r.2))) [] from rfl]
    rw [assocLookup_foldl_upd]
    rw [show (assocLookup ([] : List (String × PairRow α)) k) = none from rfl]
    rw [foldl_pair_setfst]
    cases (cur.filter (fun e => key e == k)).getLast? <;> rfl
  rw [show des.foldl (pairAddCand key) (cur.foldl (pairAddCur key) []) =
      des.foldl (fun t e => assocUpd t (key e) (none, none) (fun r => (r.1, some e)))
        (cur.foldl (pairAddCur key) []) from rfl]
  rw [assocLookup_foldl_upd, h1, foldl_pair_setsnd]
  cases hf : (cur.filter (fun e => key e == k)).getLast? with
  | none =>
    cases hg : (des.filter (fun e => key e == k)).getLast? with
    | none => simp
    | some e => simp
  | some x =>
    cases hg : (des.filter (fun e => key e == k)).getLast? with
    | none => simp
    | some e => simp

theorem pairBuild_nodup {α : Type} (key : α → String) (cur des : List α) :
    (keysOf (pairBuild key cur des)).Nodup := by
  rw [pairBuild]
  exact nodup_keys_foldl_upd _ _ _ _ _ (nodup_keys_foldl_upd _ _ _ _ _ (by simp [keysOf]))

/-- Every row of a built pair table is exactly the last current and last
candidate whose key matches the row key, and at least one side is present. -/
theorem pairBuild_row_char {α : Type} (key : α → String) (cur des : List α) (k : String)
    (row : PairRow α) (h : (k, row) ∈ pairBuild key cur des) :
    row = ((cur.filter (fun e => key e == k)).getLast?,
           (des.filter (fun e => key e == k)).getLast?) ∧
      ¬(((cur.filter (fun e => key e == k)).getLast?).isNone ∧
        ((des.filter (fun e => key e == k)).getLast?).isNone) := by
  have hl := assocLookup_eq_some_of_mem _ _ _ (pairBuild_nodup key cur des) h
  rw [pairBuild_lookup] at hl
  by_cases hc : ((cur.filter (fun e => key e == k)).getLast?).isNone ∧
      ((des.filter (fun e => key e == k)).getLast?).isNone
  · rw [if_pos hc] at hl
    cases hl
  · rw [if_neg hc] at hl
    injection hl with hl
    exact ⟨hl.symm, hc⟩

/-- Elements named by a row: the row's current side always stems from the
current list (with matching key), and similarly for the candidate side. -/
theorem mem_of_getLast?_eq_some {α : Type} {l : List α} {x : α}
    (h : l.getLast? = some x) : x ∈ l := by
  obtain ⟨hne, hx⟩ := List.mem_getLast?_eq_getLast (l := l) (x := x)
    (by simpa [Option.mem_def] using h)
  rw [hx]
  exact List.getLast_mem hne

theorem pairBuild_current_mem {α : Type} (key : α → String) (cur des : List α) (k : String)
    (row : PairRow α) (e : α) (h : (k, row) ∈ pairBuild key cur des) (he : row.1 = some e) :
    e ∈ cur ∧ key e = k := by
  obtain ⟨hrow, -⟩ := pairBuild_row_char key cur des k row h
  rw [hrow] at he
  have hmem := mem_of_getLast?_eq_some he
  refine ⟨List.mem_of_mem_filter hmem, ?_⟩
  have := List.of_mem_filter (p := fun e => key e == k) hmem
  exact by simpa using this

theorem pairBuild_candidate_mem {α : Type} (key : α → String) (cur des : List α) (k : String)
    (row : PairRow α) (e : α) (h : (k, row) ∈ pairBuild key cur des) (he : row.2 = some e) :
    e ∈ des ∧ key e = k := by
  obtain ⟨hrow, -⟩ := pairBuild_row_char key cur des k row h
  rw [hrow] at he
  have hmem := mem_of_getLast?_eq_some he
  refine ⟨List.mem_of_mem_filter hmem, ?_⟩
  have := List.of_mem_filter (p := fun e => key e == k) hmem
  exact by simpa using this

/-! ## Firewall plan engine (`firewall/plan/plan.go`)

`planTableRow` / `planTable2Row` are embedded as `PairRow` values: `.1` is the
Go field `current`, `.2` is the Go field `candidate`. -/

structure InstanceRule where
  providerID : String
  rulesName : String
deriving DecidableEq, Repr

/-- Embeds `plan.Changes` of the firewall engine. -/
structure FwChanges where
  create : List InboundRules
  updateOld : List InboundRules
  updateNew : List InboundRules
  delete : List InboundRules
  set : List InstanceRule
  unset : List InstanceRule
deriving DecidableEq, Repr

abbrev FwRow := PairRow InboundRules

abbrev Fw2Row := PairRow InstanceRule

/-- Embeds `planTable` keys rows by the rule-set name. -/
def fwKey (r : InboundRules) : String := r.name

/-- Embeds `planTable2` keys rows by `ProviderID + RulesName` (string concatenation). -/
def fw2Key (i : InstanceRule) : String := i.providerID ++ i.rulesName

/-- Embeds `planTable.getUpdates` of `firewall/plan/plan.go`.  NOTE: the source tests
`!row.current.Same(row.current)` — the current rule-set is compared with
itself rather than with the candidate — and the guard is embedded verbatim. -/
def fwGetUpdates (t : List (String × FwRow)) : List InboundRules × List InboundRules :=
  t.foldl
    (fun acc kr =>
      match kr.2.1, kr.2.2 with
      | some cur, some cand =>
          if cur.Same cur = false then (acc.1 ++ [cand], acc.2 ++ [cur]) else acc
      | _, _ => acc)
    ([], [])

/-- Embeds `planTable.getCreates`: rows without a current rule-set emit the candidate. -/
def fwGetCreates (t : List (String × FwRow)) : List InboundRules :=
  t.filterMap fun kr => if kr.2.1.isNone then kr.2.2 else none

/-- Embeds `planTable.getDeletes`: rows with a current rule-set and no candidate. -/
def fwGetDeletes (t : List (String × FwRow)) : List InboundRules :=
  t.filterMap fun kr =>
    match kr.2.1, kr.2.2 with
    | some cur, none => some cur
    | _, _ => none

/-- Embeds `planTable2.getSets`: binding rows without a current binding. -/
def fw2GetSets (t : List (String × Fw2Row)) : List InstanceRule :=
  t.filterMap fun kr => if kr.2.1.isNone then kr.2.2 else none

/-- Embeds `planTable2.getUnsets`: binding rows with a current binding, no candidate. -/
def fw2GetUnsets (t : List (String × Fw2Row)) : List InstanceRule :=
  t.filterMap fun kr =>
    match kr.2.1, kr.2.2 with
    | some cur, none => some cur
    | _, _ => none

/-- The per-instance bindings contributed by a rule-set list, in loop order
(the inner loop of `Plan.Calculate` over `ProviderIDs`). -/
def fwBindings : List InboundRules → List InstanceRule
  | [] => []
  | r :: rest => r.providerIDs.map (fun id => ⟨id, r.name⟩) ++ fwBindings rest

/-- The rule-set table built by `Plan.Calculate`: all currents, then all
desireds (the source fills both tables in one loop per list; the tables are
independent, so the folds are separated here). -/
def fwBuildTable (current desired : List InboundRules) : List (String × FwRow) :=
  pairBuild fwKey current desired

/-- The instance-binding table built by `Plan.Calculate`. -/
def fw2BuildTable (current desired : List InboundRules) : List (String × Fw2Row) :=
  pairBuild fw2Key (fwBindings current) (fwBindings desired)

/-- Embeds `Plan.Calculate` of the firewall engine. -/
def fwCalculate (current desired : List InboundRules) : FwChanges :=
  { create := fwGetCreates (fwBuildTable current desired)
    delete := fwGetDeletes (fwBuildTable current desired)
    updateNew := (fwGetUpdates (fwBuildTable current desired)).1
    updateOld := (fwGetUpdates (fwBuildTable current desired)).2
    set := fw2GetSets (fw2BuildTable current desired)
    unset := fw2GetUnsets (fw2BuildTable current desired) }

/-- The update guard `!row.current.Same(row.current)` never fires, so the
firewall engine emits no update pair on any input. -/
theorem fwGetUpdates_eq_nil (t : List (String × FwRow)) : fwGetUpdates t = ([], []) := by
  rw [fwGetUpdates]
  induction t with
  | nil => rfl
  | cons kr rest ih =>
    obtain ⟨k, cu, ca⟩ := kr
    rw [List.foldl_cons]
    cases cu with
    | none => cases ca <;> exact ih
    | some cur =>
      cases ca with
      | none => exact ih
      | some cand =>
        have hs : ¬ (cur.Same cur = false) := by simp [InboundRules.Same_self]
        simp only [if_neg hs]
        exact ih

/-- Applying `Plan.Calculate` to identical current and desired rule-set lists
yields an entirely empty change set (rule-set diff and binding diff). -/
theorem fwCalculate_self (L : List InboundRules) :
    fwCalculate L L = ⟨[], [], [], [], [], []⟩ := by
  have hcreate : fwGetCreates (fwBuildTable L L) = [] := by
    rw [fwGetCreates, List.filterMap_eq_nil_iff]
    rintro ⟨k, row⟩ hmem
    obtain ⟨hrow, -⟩ := pairBuild_row_char fwKey L L k row hmem
    rw [hrow]
    cases hf : (L.filter (fun e => fwKey e == k)).getLast? <;> simp [hf]
  have hdelete : fwGetDeletes (fwBuildTable L L) = [] := by
    rw [fwGetDeletes, List.filterMap_eq_nil_iff]
    rintro ⟨k, row⟩ hmem
    obtain ⟨hrow, -⟩ := pairBuild_row_char fwKey L L k row hmem
    rw [hrow]
    cases hf : (L.filter (fun e => fwKey e == k)).getLast? <;> simp [hf]
  have hset : fw2GetSets (fw2BuildTable L L) = [] := by
    rw [fw2GetSets, List.filterMap_eq_nil_iff]
    rintro ⟨k, row⟩ hmem
    obtain ⟨hrow, -⟩ := pairBuild_row_char fw2Key (fwBindings L) (fwBindings L) k row hmem
    rw [hrow]
    cases hf : ((fwBindings L).filter (fun e => fw2Key e == k)).getLast? <;> simp [hf]
  have hunset : fw2GetUnsets (fw2BuildTable L L) = [] := by
    rw [fw2GetUnsets, List.filterMap_eq_nil_iff]
    rintro ⟨k, row⟩ hmem
    obtain ⟨hrow, -⟩ := pairBuild_row_char fw2Key (fwBindings L) (fwBindings L) k row hmem
    rw [hrow]
    cases hf : ((fwBindings L).filter (fun e => fw2Key e == k)).getLast? <;> simp [hf]
  rw [fwCalculate, hcreate, hdelete, hset, hunset, fwGetUpdates_eq_nil]

/-- The current `update-rule` rule-set of the repository's `TestRunOnce`. -/
def fwUpdateRuleCur : InboundRules := ⟨"update-rule", [⟨"udp", 5000⟩], ["abc", "zyx"]⟩

/-- The desired `update-rule` rule-set of the repository's `TestRunOnce`. -/
def fwUpdateRuleDes : InboundRules := ⟨"update-rule", [⟨"udp", 9800⟩], ["abc", "zyx"]⟩

/-- Claim C1: the firewall `Plan.Calculate` is claimed to emit a matched
`(UpdateOld, UpdateNew)` pair exactly when the rule lists of a name present on
both sides differ.  On the repository's own `TestRunOnce` fixture — current
`update-rule udp:5000`, desired `update-rule udp:9800`, rule lists differing —
no update pair is emitted, because `getUpdates` compares `row.current` with
itself.  This evidences the code bug refuting the claim (and the test's
expected changes). -/
theorem fw_update_pair_missing_on_test_fixture :
    fwUpdateRuleCur.Same fwUpdateRuleDes = false ∧
    (fwCalculate [fwUpdateRuleCur] [fwUpdateRuleDes]).updateNew = [] ∧
    (fwCalculate [fwUpdateRuleCur] [fwUpdateRuleDes]).updateOld = [] := by
  refine ⟨by decide, ?_, ?_⟩ <;>
    simp [fwCalculate, fwGetUpdates_eq_nil]

/-! ## ExtIP value types and plan engine (`extip/extip/extip.go`, `extip/plan/plan.go`) -/

/-- Embeds `extip.ExtIP`: `Namespace` (embedded as `nspace`), `SvcName`, `ExtIPs`. -/
structure ExtIP where
  nspace : String
  svcName : String
  extIPs : List String
deriving DecidableEq, Repr

def insertSorted (x : String) : List String → List String
  | [] => [x]
  | y :: rest => if lexLe x y then x :: y :: rest else y :: insertSorted x rest

/-- Lexicographic insertion sort (stands in for Go `sort.Stable`). -/
def sortStrings (l : List String) : List String := l.foldr insertSorted []

/-- Modelled from the spec: `endpoint.Targets.Same` (the `dns/endpoint` package
is absent from the sources).  Spec §3 states target comparison is
order-insensitive; the embedding mirrors the length-guarded sort-and-compare
algorithm used by `inbound.ProviderIDs.Same`, which is among the sources. -/
def targetsSame (t o : List String) : Bool :=
  if t.length ≠ o.length then false else sortStrings t == sortStrings o

theorem targetsSame_self (t : List String) : targetsSame t t = true := by
  simp [targetsSame]

/-- Embeds `extipChanged` from `extip/plan/plan.go`. -/
def extipChanged (desired current : ExtIP) : Bool :=
  !(targetsSame desired.extIPs current.extIPs)

abbrev EipRow := PairRow ExtIP

/-- The ExtIP `planTable` keys rows by `SvcName`. -/
def eipKey (e : ExtIP) : String := e.svcName

/-- Embeds `plan.Changes` of the ExtIP engine: update pairs only. -/
structure EipChanges where
  updateOld : List ExtIP
  updateNew : List ExtIP
deriving DecidableEq, Repr

/-- The per-row decision of the ExtIP `planTable.getUpdates`: rows without a
current are skipped (`continue`); a missing candidate is replaced by an
`ExtIP` with the current service name and empty IP list; the pair is emitted
when `extipChanged`. -/
def eipRowPair (row : EipRow) : Option (ExtIP × ExtIP) :=
  match row.1 with
  | none => none
  | some cur =>
    let cand := row.2.getD ⟨"", cur.svcName, []⟩
    if extipChanged cand cur then some (cand, cur) else none

/-- Embeds `planTable.getUpdates` of `extip/plan/plan.go` (one loop appending to both
result lists). -/
def eipGetUpdates (t : List (String × EipRow)) : List ExtIP × List ExtIP :=
  t.foldl
    (fun acc kr =>
      match eipRowPair kr.2 with
      | some p => (acc.1 ++ [p.1], acc.2 ++ [p.2])
      | none => acc)
    ([], [])

def eipBuildTable (current desired : List ExtIP) : List (String × EipRow) :=
  pairBuild eipKey current desired

/-- Embeds `Plan.Calculate` of the ExtIP engine. -/
def eipCalculate (current desired : List ExtIP) : EipChanges :=
  { updateNew := (eipGetUpdates (eipBuildTable current desired)).1
    updateOld := (eipGetUpdates (eipBuildTable current desired)).2 }

/-- The matched update pairs of a table, in row order. -/
def eipPairs (t : List (String × EipRow)) : List (ExtIP × ExtIP) :=
  t.filterMap fun kr => eipRowPair kr.2

theorem eipGetUpdates_append (t : List (String × EipRow))
    (acc : List ExtIP × List ExtIP) :
    t.foldl
      (fun acc kr =>
        match eipRowPair kr.2 with
        | some p => (acc.1 ++ [p.1], acc.2 ++ [p.2])
        | none => acc)
      acc =
      (acc.1 ++ (eipPairs t).map Prod.fst, acc.2 ++ (eipPairs t).map Prod.snd) := by
  induction t generalizing acc with
  | nil => simp [eipPairs]
  | cons kr rest ih =>
    rw [List.foldl_cons]
    cases hp : eipRowPair kr.2 with
    | none =>
      rw [ih]
      simp only [eipPairs, List.filterMap_cons, hp]
    | some p =>
      rw [ih]
      simp only [eipPairs, List.filterMap_cons, hp, List.map_cons]
      simp

theorem eipGetUpdates_eq_pairs (t : List (String × EipRow)) :
    eipGetUpdates t = ((eipPairs t).map Prod.fst, (eipPairs t).map Prod.snd) := by
  rw [eipGetUpdates, eipGetUpdates_append]
  simp

/-- The desired-only service of the C3 counterexample. -/
def eipNewSvc : ExtIP := ⟨"", "new-svc", ["1.2.3.4"]⟩

/-- Claim C3 counterexample: `new-svc` appears in the desired list and not in
the (empty) current list, yet `Calculate` emits no update pair at all —
`getUpdates` skips every row whose current side is nil, so a desired-only
service is ignored rather than updated with an empty current. -/
theorem eip_candidate_only_emits_nothing :
    (eipCalculate [] [eipNewSvc]).updateNew = [] ∧
    (eipCalculate [] [eipNewSvc]).updateOld = [] ∧
    eipNewSvc.svcName ∉ ([] : List ExtIP).map ExtIP.svcName := by
  refine ⟨?_, ?_, by simp⟩ <;> decide

/-- Claim C3 (amended): the ExtIP engine emits update pairs only for service
names present in the current list; a name appearing only in the desired list
contributes nothing.  Every emitted new side shares its service name with some
current entry, and every emitted old side is a current entry. -/
theorem eip_updates_only_for_current_names (cur des : List ExtIP) :
    (∀ e ∈ (eipCalculate cur des).updateNew, ∃ c ∈ cur, c.svcName = e.svcName) ∧
    (∀ o ∈ (eipCalculate cur des).updateOld, o ∈ cur) := by
  have hpairs : ∀ p ∈ eipPairs (eipBuildTable cur des),
      (∃ c ∈ cur, c.svcName = p.1.svcName) ∧ p.2 ∈ cur := by
    intro p hp
    rw [eipPairs] at hp
    obtain ⟨⟨k, row⟩, hmem, hrow⟩ := List.mem_filterMap.mp hp
    rw [eipRowPair] at hrow
    cases hc : row.1 with
    | none => rw [hc] at hrow
              cases hrow
    | some cur' =>
      rw [hc] at hrow
      simp only [] at hrow
      obtain ⟨hcur, hkey⟩ := pairBuild_current_mem eipKey cur des k row cur' hmem hc
      by_cases hch : extipChanged (row.2.getD ⟨"", cur'.svcName, []⟩) cur' = true
      · rw [if_pos hch] at hrow
        injection hrow with hrow
        subst hrow
        constructor
        · refine ⟨cur', hcur, ?_⟩
          cases hcand : row.2 with
          | none => simp
          | some d =>
            obtain ⟨-, hkd⟩ := pairBuild_candidate_mem eipKey cur des k row d hmem hcand
            simp only [hcand, Option.getD_some]
            rw [eipKey] at hkd hkey
            rw [hkey, hkd]
        · exact hcur
      · rw [if_neg hch] at hrow
        cases hrow
  constructor
  · intro e he
    rw [eipCalculate] at he
    simp only [eipGetUpdates_eq_pairs] at he
    obtain ⟨p, hp, hpe⟩ := List.mem_map.mp he
    obtain ⟨⟨c, hc, hcn⟩, -⟩ := hpairs p hp
    exact ⟨c, hc, by rw [hcn, hpe]⟩
  · intro o ho
    rw [eipCalculate] at ho
    simp only [eipGetUpdates_eq_pairs] at ho
    obtain ⟨p, hp, hpo⟩ := List.mem_map.mp ho
    obtain ⟨-, hold⟩ := hpairs p hp
    exact hpo ▸ hold

/-- When every current service name also occurs among the desired services and
the per-name ExtIP sets match order-insensitively, the ExtIP engine emits no
update pair. -/
theorem eipCalculate_no_updates_of_match (cur des : List ExtIP)
    (hname : ∀ c ∈ cur, ∃ d ∈ des, d.svcName = c.svcName)
    (hsame : ∀ c ∈ cur, ∀ d ∈ des, d.svcName = c.svcName →
      targetsSame d.extIPs c.extIPs = true) :
    eipCalculate cur des = ⟨[], []⟩ := by
  have hpairs : eipPairs (eipBuildTable cur des) = [] := by
    rw [eipPairs, List.filterMap_eq_nil_iff]
    rintro ⟨k, row⟩ hmem
    obtain ⟨hrow, -⟩ := pairBuild_row_char eipKey cur des k row hmem
    rw [eipRowPair]
    cases hc : row.1 with
    | none => rfl
    | some c =>
      obtain ⟨hccur, hck⟩ := pairBuild_current_mem eipKey cur des k row c hmem hc
      obtain ⟨d, hd, hdn⟩ := hname c hccur
      have hdk : eipKey d = k := by rw [eipKey, hdn, ← hck, eipKey]
      have hdG : d ∈ des.filter (fun e => eipKey e == k) :=
        List.mem_filter_of_mem hd (by simp [hdk])
      have hG : (des.filter (fun e => eipKey e == k)).getLast? ≠ none := by
        intro hnone
        rw [List.getLast?_eq_none_iff] at hnone
        rw [hnone] at hdG
        cases hdG
      cases hcand : row.2 with
      | none =>
        rw [hrow] at hcand
        exact absurd hcand hG
      | some d' =>
        obtain ⟨hd'des, hd'k⟩ := pairBuild_candidate_mem eipKey cur des k row d' hmem hcand
        have hd'n : d'.svcName = c.svcName := by
          rw [eipKey] at hd'k hck
          rw [hd'k, ← hck]
        have := hsame c hccur d' hd'des hd'n
        simp only [hcand, Option.getD_some]
        rw [if_neg (by simp [extipChanged, this])]
  rw [eipCalculate]
  simp [eipGetUpdates_eq_pairs, hpairs]

/-! ## DNS endpoints (`dns/endpoint`, modelled from the spec)

The `dns/endpoint` package is absent from the sources; the data model follows
spec §3, with TTL `0` embedding "not configured" (matching `ttlNotConfigured`
in the `source` package, which is among the sources). -/

/-- Modelled from the spec: `endpoint.Endpoint` (§3 data model). -/
structure Endpoint where
  dnsName : String
  targets : List String
  recordType : String
  recordTTL : Int
  labels : Labels
deriving DecidableEq, Repr

def RecordTypeA : String := "A"

def RecordTypeCNAME : String := "CNAME"

def RecordTypeTXT : String := "TXT"

/-- Modelled from the spec: the `owner` label key (TXT-registry tenant). -/
def OwnerLabelKey : String := "owner"

/-- Modelled from the spec: the `resource` label key (source back-reference). -/
def ResourceLabelKey : String := "resource"

/-- Modelled from the spec: `TTL.IsConfigured`; TTL 0 means absent. -/
def ttlIsConfigured (t : Int) : Bool := 0 < t

/-! ## DNS plan engine (`dns/plan/plan.go`) -/

/-- Embeds `sanitizeDNSName`: lower-case, then trim whitespace. -/
def sanitizeDNSName (s : String) : String := trimStr (toLowerStr s)

def firstTarget (ep : Endpoint) : String := ep.targets.headD ""

/-- Modelled from the spec: `PerResource.ResolveCreate` (§4.2) — among the
candidates sharing the lowest `labels.resource` identifier, pick the one with
the lexicographically smallest first target.  Empty candidate lists yield
`none` (unreachable from `Calculate`, where keyless rows do not exist). -/
def resolveCreate (candidates : List Endpoint) : Option Endpoint :=
  match minString (candidates.map (fun ep => lookupLabel ep.labels ResourceLabelKey)) with
  | none => none
  | some r =>
    (candidates.filter (fun ep => lookupLabel ep.labels ResourceLabelKey == r)).foldl
      (fun acc ep =>
        match acc with
        | none => some ep
        | some m => if lexLt (firstTarget ep) (firstTarget m) then some ep else acc)
      none

/-- Modelled from the spec: `PerResource.ResolveUpdate` (§4.2) — prefer the
first candidate whose `labels.resource` equals the current record's; fall back
to the creation choice. -/
def resolveUpdate (current : Endpoint) (candidates : List Endpoint) : Option Endpoint :=
  match candidates.find? (fun ep =>
      lookupLabel ep.labels ResourceLabelKey ==
        lookupLabel current.labels ResourceLabelKey) with
  | some ep => some ep
  | none => resolveCreate candidates

theorem resolveUpdate_singleton_self (e : Endpoint) : resolveUpdate e [e] = some e := by
  rw [resolveUpdate]
  simp [List.find?]

/-- Embeds `plan.Changes` of the DNS engine. -/
structure DnsChanges where
  create : List Endpoint
  updateOld : List Endpoint
  updateNew : List Endpoint
  delete : List Endpoint
deriving DecidableEq, Repr

/-- Modelled from the spec: the plan policies (§4.2; `dns/plan/policy.go` is
absent from the sources).  `sync` is the identity; `upsertOnly` strips the
delete list. -/
inductive Policy
  | sync
  | upsertOnly
deriving DecidableEq, Repr

def Policy.apply : Policy → DnsChanges → DnsChanges
  | .sync, c => c
  | .upsertOnly, c => { c with delete := [] }

/-- The policy chain applied by `Plan.Calculate` (`for _, pol := range p.Policies`). -/
def applyPolicies (pols : List Policy) (c : DnsChanges) : DnsChanges :=
  pols.foldl (fun c p => p.apply c) c

theorem applyPolicies_fields (pols : List Policy) (c : DnsChanges) :
    (applyPolicies pols c).create = c.create ∧
    (applyPolicies pols c).updateNew = c.updateNew ∧
    (applyPolicies pols c).updateOld = c.updateOld := by
  induction pols generalizing c with
  | nil => exact ⟨rfl, rfl, rfl⟩
  | cons p pols ih =>
    cases p with
    | sync => exact ih c
    | upsertOnly => exact ih { c with delete := [] }

theorem applyPolicies_empty (pols : List Policy) :
    applyPolicies pols ⟨[], [], [], []⟩ = ⟨[], [], [], []⟩ := by
  induction pols with
  | nil => rfl
  | cons p pols ih => cases p <;> exact ih

/-- A DNS `planTableRow`: `.1` is the Go field `current`, `.2` the Go field
`candidates`. -/
abbrev DnsRow := Option Endpoint × List Endpoint

/-- The DNS `planTable` keys rows by the sanitized DNS name. -/
def dnsKey (e : Endpoint) : String := sanitizeDNSName e.dnsName

def dnsAddCurrent (t : List (String × DnsRow)) (e : Endpoint) : List (String × DnsRow) :=
  assocUpd t (dnsKey e) (none, []) (fun r => (some e, r.2))

def dnsAddCandidate (t : List (String × DnsRow)) (e : Endpoint) : List (String × DnsRow) :=
  assocUpd t (dnsKey e) (none, []) (fun r => (r.1, r.2 ++ [e]))

/-- The table built by the DNS `Plan.Calculate`: all currents, then all
desireds. -/
def dnsBuildTable (cur des : List Endpoint) : List (String × DnsRow) :=
  des.foldl dnsAddCandidate (cur.foldl dnsAddCurrent [])

/-- Embeds `targetChanged` from `dns/plan/plan.go`. -/
def targetChanged (desired current : Endpoint) : Bool :=
  !(targetsSame desired.targets current.targets)

/-- Embeds `shouldUpdateTTL` from `dns/plan/plan.go`. -/
def shouldUpdateTTL (desired current : Endpoint) : Bool :=
  if !(ttlIsConfigured desired.recordTTL) then false
  else desired.recordTTL != current.recordTTL

/-- Embeds `inheritOwner` from `dns/plan/plan.go`: copy the owner label of the
current record into the update. -/
def inheritOwner (cur upd : Endpoint) : Endpoint :=
  { upd with
    labels := setLabel upd.labels OwnerLabelKey (lookupLabel cur.labels OwnerLabelKey) }

/-- The per-row update decision of the DNS `planTable.getUpdates`: rows with a
current record and a nonempty candidate list resolve an update, and emit the
pair iff the TTL should be updated or the targets changed, inheriting the
owner label.  (The resolver's `none` branch is unreachable for nonempty
candidates.) -/
def dnsRowPair (row : DnsRow) : Option (Endpoint × Endpoint) :=
  match row with
  | (some cur, c :: cs) =>
    (resolveUpdate cur (c :: cs)).bind fun u =>
      if shouldUpdateTTL u cur || targetChanged u cur then
        some (inheritOwner cur u, cur)
      else none
  | _ => none

/-- Embeds `planTable.getUpdates` of the DNS engine (one loop appending to both
result lists). -/
def dnsGetUpdates (t : List (String × DnsRow)) : List Endpoint × List Endpoint :=
  t.foldl
    (fun acc kr =>
      match dnsRowPair kr.2 with
      | some p => (acc.1 ++ [p.1], acc.2 ++ [p.2])
      | none => acc)
    ([], [])

/-- Embeds `planTable.getCreates` of the DNS engine: rows with no current record emit
the resolved creation candidate. -/
def dnsGetCreates (t : List (String × DnsRow)) : List Endpoint :=
  t.filterMap fun kr => if kr.2.1.isNone then resolveCreate kr.2.2 else none

/-- Embeds `planTable.getDeletes` of the DNS engine: rows with a current record and
no candidates. -/
def dnsGetDeletes (t : List (String × DnsRow)) : List Endpoint :=
  t.filterMap fun kr =>
    match kr.2.1, kr.2.2 with
    | some cur, [] => some cur
    | _, _ => none

/-- Embeds `Plan.Calculate` of the DNS engine (`dns/plan/plan.go`), with the policy
chain applied to the computed changes. -/
def dnsCalculate (pols : List Policy) (cur des : List Endpoint) : DnsChanges :=
  applyPolicies pols
    { create := dnsGetCreates (dnsBuildTable cur des)
      delete := dnsGetDeletes (dnsBuildTable cur des)
      updateNew := (dnsGetUpdates (dnsBuildTable cur des)).1
      updateOld := (dnsGetUpdates (dnsBuildTable cur des)).2 }

/-- The matched DNS update pairs of a table, in row order. -/
def dnsPairs (t : List (String × DnsRow)) : List (Endpoint × Endpoint) :=
  t.filterMap fun kr => dnsRowPair kr.2

theorem dnsGetUpdates_append (t : List (String × DnsRow))
    (acc : List Endpoint × List Endpoint) :
    t.foldl
      (fun acc kr =>
        match dnsRowPair kr.2 with
        | some p => (acc.1 ++ [p.1], acc.2 ++ [p.2])
        | none => acc)
      acc =
      (acc.1 ++ (dnsPairs t).map Prod.fst, acc.2 ++ (dnsPairs t).map Prod.snd) := by
  induction t generalizing acc with
  | nil => simp [dnsPairs]
  | cons kr rest ih =>
    rw [List.foldl_cons]
    cases hp : dnsRowPair kr.2 with
    | none =>
      rw [ih]
      simp only [dnsPairs, List.filterMap_cons, hp]
    | some p =>
      rw [ih]
      simp only [dnsPairs, List.filterMap_cons, hp, List.map_cons]
      simp

theorem dnsGetUpdates_eq_pairs (t : List (String × DnsRow)) :
    dnsGetUpdates t = ((dnsPairs t).map Prod.fst, (dnsPairs t).map Prod.snd) := by
  rw [dnsGetUpdates, dnsGetUpdates_append]
  simp

theorem foldl_dns_setfst (F : List Endpoint) (init : Option DnsRow) :
    F.foldl (fun r e => some ((some e, (r.getD (none, [])).2) : DnsRow)) init =
      match F.getLast? with
      | none => init
      | some e => some (some e, (init.getD (none, [])).2) := by
  induction F generalizing init with
  | nil => rfl
  | cons e F ih =>
    rw [List.foldl_cons, ih]
    cases F with
    | nil => rfl
    | cons f F =>
      rw [List.getLast?_cons_cons]
      cases hgl : (f :: F).getLast? with
      | none => exact (List.cons_ne_nil f F (List.getLast?_eq_none_iff.mp hgl)).elim
      | some x => rfl

theorem foldl_dns_append (G : List Endpoint) (init : Option DnsRow) :
    G.foldl (fun r e => some (((r.getD (none, [])).1, (r.getD (none, [])).2 ++ [e]) : DnsRow))
        init =
      if G = [] then init
      else some ((init.getD (none, [])).1, (init.getD (none, [])).2 ++ G) := by
  induction G generalizing init with
  | nil => rfl
  | cons e G ih =>
    rw [List.foldl_cons, ih]
    cases G with
    | nil => simp
    | cons g G =>
      simp only [List.cons_ne_nil, if_false, reduceCtorEq]
      simp [List.append_assoc]

theorem dnsBuildTable_lookup (cur des : List Endpoint) (k : String) :
    assocLookup (dnsBuildTable cur des) k =
      (if ((cur.filter (fun e => dnsKey e == k)).getLast?).isNone ∧
          des.filter (fun e => dnsKey e == k) = [] then none
       else some ((cur.filter (fun e => dnsKey e == k)).getLast?,
                  des.filter (fun e => dnsKey e == k))) := by
  rw [dnsBuildTable]
  have h1 : assocLookup (cur.foldl dnsAddCurrent []) k =
      match (cur.filter (fun e => dnsKey e == k)).getLast? with
      | none => none
      | some e => some ((some e, []) : DnsRow) := by
    rw [show cur.foldl dnsAddCurrent [] =
        cur.foldl (fun t e => assocUpd t (dnsKey e) (none, []) (fun r => (some e, r.2))) []
      from rfl]
    rw [assocLookup_foldl_upd]
    rw [show (assocLookup ([] : List (String × DnsRow)) k) = none from rfl]
    rw [foldl_dns_setfst]
    cases (cur.filter (fun e => dnsKey e == k)).getLast? <;> rfl
  rw [show des.foldl dnsAddCandidate (cur.foldl dnsAddCurrent []) =
      des.foldl (fun t e => assocUpd t (dnsKey e) (none, []) (fun r => (r.1, r.2 ++ [e])))
        (cur.foldl dnsAddCurrent []) from rfl]
  rw [assocLookup_foldl_upd, h1, foldl_dns_append]
  cases hf : (cur.filter (fun e => dnsKey e == k)).getLast? with
  | none =>
    cases hg : des.filter (fun e => dnsKey e == k) with
    | nil => simp
    | cons d G => simp
  | some x =>
    cases hg : des.filter (fun e => dnsKey e == k) with
    | nil => simp
    | cons d G => simp

theorem dnsBuildTable_nodup (cur des : List Endpoint) :
    (keysOf (dnsBuildTable cur des)).Nodup := by
  rw [dnsBuildTable]
  rw [show des.foldl dnsAddCandidate (cur.foldl dnsAddCurrent []) =
      des.foldl (fun t e => assocUpd t (dnsKey e) (none, []) (fun r => (r.1, r.2 ++ [e])))
        (cur.foldl (fun t e => assocUpd t (dnsKey e) (none, []) (fun r => (some e, r.2))) [])
      from rfl]
  exact nodup_keys_foldl_upd _ _ _ _ _ (nodup_keys_foldl_upd _ _ _ _ _ (by simp [keysOf]))

/-- Every row of a built DNS table holds the last matching current record and
the full list of matching candidates, and is not empty on both sides. -/
theorem dnsBuildTable_row_char (cur des : List Endpoint) (k : String) (row : DnsRow)
    (h : (k, row) ∈ dnsBuildTable cur des) :
    row = ((cur.filter (fun e => dnsKey e == k)).getLast?,
           des.filter (fun e => dnsKey e == k)) ∧
      ¬(((cur.filter (fun e => dnsKey e == k)).getLast?).isNone ∧
        des.filter (fun e => dnsKey e == k) = []) := by
  have hl := assocLookup_eq_some_of_mem _ _ _ (dnsBuildTable_nodup cur des) h
  rw [dnsBuildTable_lookup] at hl
  by_cases hc : ((cur.filter (fun e => dnsKey e == k)).getLast?).isNone ∧
      des.filter (fun e => dnsKey e == k) = []
  · rw [if_pos hc] at hl
    cases hl
  · rw [if_neg hc] at hl
    injection hl with hl
    exact ⟨hl.symm, hc⟩

theorem dnsBuildTable_current_mem (cur des : List Endpoint) (k : String) (row : DnsRow)
    (c : Endpoint) (h : (k, row) ∈ dnsBuildTable cur des) (hc : row.1 = some c) :
    c ∈ cur ∧ dnsKey c = k := by
  obtain ⟨hrow, -⟩ := dnsBuildTable_row_char cur des k row h
  rw [hrow] at hc
  have hmem := mem_of_getLast?_eq_some hc
  refine ⟨List.mem_of_mem_filter hmem, ?_⟩
  have := List.of_mem_filter (p := fun e => dnsKey e == k) hmem
  exact by simpa using this

theorem dnsBuildTable_candidate_mem (cur des : List Endpoint) (k : String) (row : DnsRow)
    (d : Endpoint) (h : (k, row) ∈ dnsBuildTable cur des) (hd : d ∈ row.2) :
    d ∈ des ∧ dnsKey d = k := by
  obtain ⟨hrow, -⟩ := dnsBuildTable_row_char cur des k row h
  rw [hrow] at hd
  refine ⟨List.mem_of_mem_filter hd, ?_⟩
  have := List.of_mem_filter (p := fun e => dnsKey e == k) hd
  exact by simpa using this

theorem shouldUpdateTTL_self (e : Endpoint) : shouldUpdateTTL e e = false := by
  rw [shouldUpdateTTL]
  by_cases h : ttlIsConfigured e.recordTTL <;> simp [h]

theorem targetChanged_self (e : Endpoint) : targetChanged e e = false := by
  simp [targetChanged, targetsSame_self]

theorem nodup_const_length_le_one {k : String} {l : List String}
    (hnd : l.Nodup) (hall : ∀ x ∈ l, x = k) : l.length ≤ 1 := by
  match l with
  | [] => simp
  | [x] => simp
  | x :: y :: rest =>
    exfalso
    have hx := hall x (by simp)
    have hy := hall y (by simp)
    rw [List.nodup_cons] at hnd
    exact hnd.1 (by rw [hx, ← hy]; simp)

/-- With pairwise-distinct sanitized names, the per-key filter is a singleton
whenever it is nonempty. -/
theorem filter_key_nodup_eq {L : List Endpoint} {k : String}
    (hnd : (L.map dnsKey).Nodup) (hne : L.filter (fun e => dnsKey e == k) ≠ []) :
    ∃ e, L.filter (fun e => dnsKey e == k) = [e] := by
  have hsub : (L.filter (fun e => dnsKey e == k)).Sublist L := List.filter_sublist L
  have hmapnd : ((L.filter (fun e => dnsKey e == k)).map dnsKey).Nodup :=
    List.Nodup.sublist (hsub.map dnsKey) hnd
  have hall : ∀ x ∈ (L.filter (fun e => dnsKey e == k)).map dnsKey, x = k := by
    intro x hx
    obtain ⟨e, he, hex⟩ := List.mem_map.mp hx
    have := List.of_mem_filter (p := fun e => dnsKey e == k) he
    rw [← hex]
    exact by simpa using this
  have hlen : (L.filter (fun e => dnsKey e == k)).length ≤ 1 := by
    have := nodup_const_length_le_one hmapnd hall
    simpa using this
  have hpos : 0 < (L.filter (fun e => dnsKey e == k)).length :=
    List.length_pos.mpr hne
  have : (L.filter (fun e => dnsKey e == k)).length = 1 := le_antisymm hlen hpos
  exact List.length_eq_one.mp this

/-- The DNS `Plan.Calculate` with identical current and desired lists yields
an empty change set, provided the sanitized DNS names in the list are
pairwise distinct. -/
theorem dnsCalculate_self (pols : List Policy) (L : List Endpoint)
    (hnd : (L.map dnsKey).Nodup) : dnsCalculate pols L L = ⟨[], [], [], []⟩ := by
  have hrows : ∀ k row, (k, row) ∈ dnsBuildTable L L → ∃ e, row = (some e, [e]) := by
    intro k row h
    obtain ⟨hrow, hne⟩ := dnsBuildTable_row_char L L k row h
    by_cases hf : L.filter (fun e => dnsKey e == k) = []
    · exact absurd ⟨by rw [hf]; rfl, hf⟩ hne
    · obtain ⟨e, he⟩ := filter_key_nodup_eq hnd hf
      refine ⟨e, ?_⟩
      rw [hrow, he]
      rfl
  have hcreate : dnsGetCreates (dnsBuildTable L L) = [] := by
    rw [dnsGetCreates, List.filterMap_eq_nil_iff]
    rintro ⟨k, row⟩ hmem
    obtain ⟨e, he⟩ := hrows k row hmem
    rw [he]
    rfl
  have hdelete : dnsGetDeletes (dnsBuildTable L L) = [] := by
    rw [dnsGetDeletes, List.filterMap_eq_nil_iff]
    rintro ⟨k, row⟩ hmem
    obtain ⟨e, he⟩ := hrows k row hmem
    rw [he]
  have hupd : dnsPairs (dnsBuildTable L L) = [] := by
    rw [dnsPairs, List.filterMap_eq_nil_iff]
    rintro ⟨k, row⟩ hmem
    obtain ⟨e, he⟩ := hrows k row hmem
    rw [he]
    simp [dnsRowPair, resolveUpdate_singleton_self, shouldUpdateTTL_self, targetChanged_self]
  have hup2 : dnsGetUpdates (dnsBuildTable L L) = ([], []) := by
    rw [dnsGetUpdates_eq_pairs, hupd]
    rfl
  rw [dnsCalculate, hcreate, hdelete, hup2]
  exact applyPolicies_empty pols

/-- Desired/current record `foo → v1` carrying resource `r1`. -/
def fooV1 : Endpoint := ⟨"foo", ["v1"], "CNAME", 0, [("resource", "r1")]⟩

/-- Desired/current record `foo → v3` carrying the same resource `r1` (the
shape pinned by the in-source plan test
`TestDuplicatedEndpointsForSameResourceReplace`). -/
def fooV3 : Endpoint := ⟨"foo", ["v3"], "CNAME", 0, [("resource", "r1")]⟩

/-- Claim C8 counterexample: with `Current = Desired = [fooV1, fooV3]` — two
records sharing a sanitized DNS name and a resource label — the DNS engine
emits an update pair (the resolver picks `fooV1` while the row's current is
`fooV3`), so `Plan(current = desired)` is not the empty change set the claim
states. -/
theorem dns_idempotence_fails_on_duplicate_names :
    (dnsCalculate [Policy.sync] [fooV1, fooV3] [fooV1, fooV3]).updateNew ≠ [] := by
  decide

/-- Claim C8 (amended): `Plan(current = desired)` yields an empty change set
for all three engines, provided — for the DNS engine — the sanitized DNS
names of the shared list are pairwise distinct (duplicate names sharing a
resource defeat idempotence, as the counterexample shows); the firewall
engine's rule-set and binding diffs are empty unconditionally; and the ExtIP
engine emits no update whenever every current service name recurs among the
desired services with an order-insensitively equal ExtIP set. -/
theorem plan_idempotence_amended
    (pols : List Policy) (L : List Endpoint) (R : List InboundRules)
    (cur des : List ExtIP)
    (hnd : (L.map dnsKey).Nodup)
    (hname : ∀ c ∈ cur, ∃ d ∈ des, d.svcName = c.svcName)
    (hsame : ∀ c ∈ cur, ∀ d ∈ des, d.svcName = c.svcName →
      targetsSame d.extIPs c.extIPs = true) :
    dnsCalculate pols L L = ⟨[], [], [], []⟩ ∧
    fwCalculate R R = ⟨[], [], [], [], [], []⟩ ∧
    eipCalculate cur des = ⟨[], []⟩ :=
  ⟨dnsCalculate_self pols L hnd, fwCalculate_self R,
    eipCalculate_no_updates_of_match cur des hname hsame⟩

def dnsSelfFixture : Endpoint := ⟨"self.example.org", ["1.2.3.4"], "A", 0, []⟩

def fwSelfFixture : InboundRules := ⟨"self-rule", [⟨"tcp", 80⟩], ["abc"]⟩

def eipCurFixture : ExtIP := ⟨"", "svc", ["a", "b"]⟩

def eipDesFixture : ExtIP := ⟨"", "svc", ["b", "a"]⟩

theorem plan_idempotence_amended_witness :
    dnsCalculate [Policy.sync] [dnsSelfFixture] [dnsSelfFixture] = ⟨[], [], [], []⟩ ∧
    fwCalculate [fwSelfFixture] [fwSelfFixture] = ⟨[], [], [], [], [], []⟩ ∧
    eipCalculate [eipCurFixture] [eipDesFixture] = ⟨[], []⟩ :=
  plan_idempotence_amended [Policy.sync] [dnsSelfFixture] [fwSelfFixture]
    [eipCurFixture] [eipDesFixture] (by decide) (by decide) (by decide)

/-- Inversion of the DNS per-row update decision. -/
theorem dnsRowPair_inv (row : DnsRow) (p : Endpoint × Endpoint)
    (h : dnsRowPair row = some p) :
    ∃ cur' u', row.1 = some cur' ∧ resolveUpdate cur' row.2 = some u' ∧
      (shouldUpdateTTL u' cur' || targetChanged u' cur') = true ∧
      p = (inheritOwner cur' u', cur') := by
  obtain ⟨r1, r2⟩ := row
  cases r1 with
  | none => simp [dnsRowPair] at h
  | some cur' =>
    cases r2 with
    | nil => simp [dnsRowPair] at h
    | cons d ds =>
      simp only [dnsRowPair] at h
      cases hu : resolveUpdate cur' (d :: ds) with
      | none =>
        rw [hu] at h
        simp at h
      | some u' =>
        rw [hu] at h
        simp only [Option.some_bind] at h
        by_cases hcond : (shouldUpdateTTL u' cur' || targetChanged u' cur') = true
        · rw [if_pos hcond] at h
          injection h with h
          exact ⟨cur', u', rfl, hu, hcond, h.symm⟩
        · rw [if_neg hcond] at h
          cases h

/-- Claim C5: for every row of the DNS plan holding both a current record and
at least one candidate, `Calculate` emits the matched update pair for that row
iff the resolved candidate's targets differ order-insensitively from the
current targets or its TTL is configured and differs; and every emitted
update pair carries the current record's owner label on its new side. -/
theorem dns_update_iff_and_owner_inherited
    (pols : List Policy) (cur des : List Endpoint) (k : String) (row : DnsRow)
    (c u : Endpoint)
    (hmem : (k, row) ∈ dnsBuildTable cur des)
    (hcur : row.1 = some c)
    (hres : resolveUpdate c row.2 = some u) :
    ((shouldUpdateTTL u c || targetChanged u c) = true ↔
      (inheritOwner c u, c) ∈
        ((dnsCalculate pols cur des).updateNew.zip
          (dnsCalculate pols cur des).updateOld)) ∧
    (∀ p ∈ ((dnsCalculate pols cur des).updateNew.zip
        (dnsCalculate pols cur des).updateOld),
      lookupLabel p.1.labels OwnerLabelKey = lookupLabel p.2.labels OwnerLabelKey) := by
  have hzip : (dnsCalculate pols cur des).updateNew.zip
      (dnsCalculate pols cur des).updateOld = dnsPairs (dnsBuildTable cur des) := by
    obtain ⟨-, hnew, hold⟩ := applyPolicies_fields pols
      { create := dnsGetCreates (dnsBuildTable cur des)
        delete := dnsGetDeletes (dnsBuildTable cur des)
        updateNew := (dnsGetUpdates (dnsBuildTable cur des)).1
        updateOld := (dnsGetUpdates (dnsBuildTable cur des)).2 }
    rw [dnsCalculate, hnew, hold, dnsGetUpdates_eq_pairs]
    rw [List.zip_map']
    simp
  have hkc : dnsKey c = k := (dnsBuildTable_current_mem cur des k row c hmem hcur).2
  constructor
  · rw [hzip]
    constructor
    · intro hcond
      have hne : row.2 ≠ [] := by
        intro hnil
        rw [hnil] at hres
        rw [resolveUpdate] at hres
        simp [resolveCreate, minString, List.find?] at hres
      cases hr : row.2 with
      | nil => exact absurd hr hne
      | cons d ds =>
        have hrow : row = (some c, d :: ds) := Prod.ext hcur hr
        have hres2 : resolveUpdate c (d :: ds) = some u := by rw [← hr]; exact hres
        have hpair : dnsRowPair row = some (inheritOwner c u, c) := by
          rw [hrow]
          simp only [dnsRowPair]
          rw [hres2, Option.some_bind, if_pos hcond]
        exact List.mem_filterMap.mpr ⟨(k, row), hmem, hpair⟩
    · intro hp
      obtain ⟨⟨k', row'⟩, hmem', hpair'⟩ := List.mem_filterMap.mp hp
      obtain ⟨c', u', hc', hres', hcond', hpeq⟩ := dnsRowPair_inv row' _ hpair'
      have hcc : c = c' := congrArg Prod.snd hpeq
      have hk' : dnsKey c' = k' := (dnsBuildTable_current_mem cur des k' row' c' hmem' hc').2
      have hkk : k = k' := by rw [← hkc, hcc, hk']
      have hrr : row = row' := by
        have h1 := assocLookup_eq_some_of_mem _ _ _ (dnsBuildTable_nodup cur des) hmem
        have h2 := assocLookup_eq_some_of_mem _ _ _ (dnsBuildTable_nodup cur des) hmem'
        rw [← hkk] at h2
        rw [h1] at h2
        exact Option.some.inj h2
      have huu : some u = some u' := by
        rw [← hres, hcc, hrr]
        exact hres'
      injection huu with huu
      rw [huu, hcc]
      exact hcond'
  · intro p hp
    rw [hzip] at hp
    obtain ⟨⟨k', row'⟩, hmem', hpair'⟩ := List.mem_filterMap.mp hp
    obtain ⟨c', u', hc', hres', hcond', hpeq⟩ := dnsRowPair_inv row' _ hpair'
    rw [hpeq]
    exact lookupLabel_setLabel_self _ _ _

/-- Current record of the TTL-change scenario (spec Scenario B). -/
def barCur : Endpoint := ⟨"bar", ["127.0.0.1"], "A", 0, [("resource", "r1"), ("owner", "pwner")]⟩

/-- Desired record of the TTL-change scenario: same targets, TTL 300. -/
def barDes : Endpoint := ⟨"bar", ["127.0.0.1"], "A", 300, [("resource", "r1")]⟩

theorem dns_update_iff_and_owner_inherited_witness :
    (shouldUpdateTTL barDes barCur || targetChanged barDes barCur) = true ∧
    (inheritOwner barCur barDes, barCur) ∈
      ((dnsCalculate [Policy.sync] [barCur] [barDes]).updateNew.zip
        (dnsCalculate [Policy.sync] [barCur] [barDes]).updateOld) := by
  have h := dns_update_iff_and_owner_inherited [Policy.sync] [barCur] [barDes] "bar"
    (some barCur, [barDes]) barCur barDes (by decide) rfl (by decide)
  exact ⟨by decide, h.1.mp (by decide)⟩

theorem eip_updates_only_for_current_names_witness :
    (∃ c ∈ [eipCurFixture], c.svcName =
      (ExtIP.mk "" "svc" ["x"]).svcName) ∧
    (eipCurFixture ∈ [eipCurFixture]) := by
  have h := eip_updates_only_for_current_names [eipCurFixture] [⟨"", "svc", ["x"]⟩]
  exact ⟨h.1 ⟨"", "svc", ["x"]⟩ (by decide), h.2 eipCurFixture (by decide)⟩

/-! ## TXT-ownership registry (`dns/registry/txt.go`)

`TXTRegistry.Records` and `TXTRegistry.ApplyChanges` are embedded on their
cache-disabled pure paths.  The heritage serialization, `NewLabelsFromString`
and `filterOwnedRecords` live in files absent from the sources and are
modelled from the spec (§4.5). -/

def heritageMarker : String := "heritage=external-dns"

/-- Modelled from the spec: `Labels.Serialize(true)` — the label bag rendered
as `heritage=external-dns` followed by `,external-dns/<key>=<value>` per
label, wrapped in double quotes. -/
def serializeLabels (m : Labels) : String :=
  "\"" ++
    (m.foldl (fun acc p => acc ++ "," ++ "external-dns/" ++ p.1 ++ "=" ++ p.2)
      heritageMarker) ++ "\""

/-- Leading/trailing double quotes stripped (Go `strings.Trim(s, "\"")`). -/
def stripQuotes (s : String) : String :=
  ⟨((s.data.dropWhile (· == '"')).reverse.dropWhile (· == '"')).reverse⟩

def parseLabelTok (t : String) : Option (String × String) :=
  match splitOnChar '=' t with
  | [kv, v] =>
    match splitOnChar '/' kv with
    | ["external-dns", k] => some (k, v)
    | _ => none
  | _ => none

/-- Modelled from the spec: `endpoint.NewLabelsFromString` — parse a heritage
TXT value into a label bag; `none` embeds `ErrInvalidHeritage` (a value whose
first comma-separated token is not the heritage marker). -/
def parseHeritage (s : String) : Option Labels :=
  match splitOnChar ',' (stripQuotes s) with
  | t0 :: rest =>
    if t0 == heritageMarker then some (rest.filterMap parseLabelTok) else none
  | [] => none

/-- Embeds `prefixNameMapper.toEndpointName`: strip the prefix; unprefixed TXT names
map to the empty string. -/
def toEndpointName (pfx txtDNSName : String) : String :=
  if strHasPrefix pfx txtDNSName then strTrimPrefix pfx txtDNSName else ""

/-- Embeds `prefixNameMapper.toTXTName`. -/
def toTXTName (pfx endpointDNSName : String) : String := pfx ++ endpointDNSName

/-- The TXT marker `NewEndpoint(toTXTName(name), TXT, labels.Serialize(true))`
synthesized by `ApplyChanges` (fresh empty label bag, no TTL). -/
def synthTXT (pfx : String) (ep : Endpoint) : Endpoint :=
  ⟨toTXTName pfx ep.dnsName, [serializeLabels ep.labels], RecordTypeTXT, 0, []⟩

/-- Modelled from the spec: `filterOwnedRecords` of the dns registry (absent
from the sources) — keep only records whose `labels.owner` equals the
registry's owner id. -/
def filterOwnedRecords (ownerID : String) (eps : List Endpoint) : List Endpoint :=
  eps.filter fun ep => lookupLabel ep.labels OwnerLabelKey == ownerID

/-- Embeds `r.Labels[OwnerLabelKey] = ownerID` applied to a created record. -/
def claimOwner (ownerID : String) (ep : Endpoint) : Endpoint :=
  { ep with labels := setLabel ep.labels OwnerLabelKey ownerID }

/-- Embeds `TXTRegistry.ApplyChanges` (the change set forwarded to the provider).
The Go loops range over the filtered slices while appending to them; the
range expression is evaluated once, so each list becomes the filtered records
followed by their synthesized TXT markers.  Create is unfiltered: each record
is claimed with the owner id before its marker is synthesized. -/
def txtApplyChanges (ownerID pfx : String) (changes : DnsChanges) : DnsChanges :=
  let createF := changes.create.map (claimOwner ownerID)
  let deleteF := filterOwnedRecords ownerID changes.delete
  let updOldF := filterOwnedRecords ownerID changes.updateOld
  let updNewF := filterOwnedRecords ownerID changes.updateNew
  { create := createF ++ createF.map (synthTXT pfx)
    updateOld := updOldF ++ updOldF.map (synthTXT pfx)
    updateNew := updNewF ++ updNewF.map (synthTXT pfx)
    delete := deleteF ++ deleteF.map (synthTXT pfx) }

/-- First pass of `TXTRegistry.Records` (cache disabled): partition the raw
provider records into pass-through endpoints and the label map keyed by the
mapped endpoint name.  A TXT whose first target fails heritage parsing is
passed through (`ErrInvalidHeritage` branch).  The source indexes
`record.Targets[0]`, which panics on an empty target list; the embedding
reads `""` there. -/
def txtPartStep (pfx : String) (acc : List Endpoint × List (String × Labels))
    (record : Endpoint) : List Endpoint × List (String × Labels) :=
  if record.recordType != RecordTypeTXT then (acc.1 ++ [record], acc.2)
  else
    match parseHeritage (record.targets.headD "") with
    | none => (acc.1 ++ [record], acc.2)
    | some labels =>
        (acc.1,
         assocUpd acc.2 (toEndpointName pfx record.dnsName) [] (fun _ => labels))

def txtPartition (pfx : String) (records : List Endpoint) :
    List Endpoint × List (String × Labels) :=
  records.foldl (txtPartStep pfx) ([], [])

/-- Second pass of `TXTRegistry.Records`: attach the mapped label bag, or a
fresh empty one when no ownership TXT maps to the endpoint's name. -/
def txtRecords (pfx : String) (records : List Endpoint) : List Endpoint :=
  (txtPartition pfx records).1.map fun ep =>
    { ep with labels := (assocLookup (txtPartition pfx records).2 ep.dnsName).getD [] }

theorem filter_append_map_gate (ownerID pfx : String) (l : List Endpoint) :
    ∀ r ∈ filterOwnedRecords ownerID l ++
        (filterOwnedRecords ownerID l).map (synthTXT pfx),
      lookupLabel r.labels OwnerLabelKey = ownerID ∨
      ∃ e ∈ filterOwnedRecords ownerID l ++
          (filterOwnedRecords ownerID l).map (synthTXT pfx),
        lookupLabel e.labels OwnerLabelKey = ownerID ∧ r = synthTXT pfx e := by
  intro r hr
  rcases List.mem_append.mp hr with h | h
  · left
    have := List.of_mem_filter h
    exact by simpa using this
  · right
    obtain ⟨e, he, hre⟩ := List.mem_map.mp h
    have hown : lookupLabel e.labels OwnerLabelKey = ownerID := by
      have := List.of_mem_filter he
      exact by simpa using this
    exact ⟨e, List.mem_append_left _ he, hown, hre.symm⟩

/-- Claim C6: in every change set the TXT registry forwards, each record of
Delete, UpdateOld and UpdateNew either carries `labels.owner = ownerId` or is
the synthesized TXT ownership marker of such a record in the same list; the
Create list passes through unfiltered, each record claimed with the owner id
and followed by the markers of the claimed records. -/
theorem txt_apply_changes_ownership_gate (ownerID pfx : String) (changes : DnsChanges) :
    (∀ r ∈ (txtApplyChanges ownerID pfx changes).delete,
      lookupLabel r.labels OwnerLabelKey = ownerID ∨
      ∃ e ∈ (txtApplyChanges ownerID pfx changes).delete,
        lookupLabel e.labels OwnerLabelKey = ownerID ∧ r = synthTXT pfx e) ∧
    (∀ r ∈ (txtApplyChanges ownerID pfx changes).updateOld,
      lookupLabel r.labels OwnerLabelKey = ownerID ∨
      ∃ e ∈ (txtApplyChanges ownerID pfx changes).updateOld,
        lookupLabel e.labels OwnerLabelKey = ownerID ∧ r = synthTXT pfx e) ∧
    (∀ r ∈ (txtApplyChanges ownerID pfx changes).updateNew,
      lookupLabel r.labels OwnerLabelKey = ownerID ∨
      ∃ e ∈ (txtApplyChanges ownerID pfx changes).updateNew,
        lookupLabel e.labels OwnerLabelKey = ownerID ∧ r = synthTXT pfx e) ∧
    (txtApplyChanges ownerID pfx changes).create =
      changes.create.map (claimOwner ownerID) ++
        (changes.create.map (claimOwner ownerID)).map (synthTXT pfx) ∧
    (∀ r ∈ changes.create.map (claimOwner ownerID),
      lookupLabel r.labels OwnerLabelKey = ownerID) := by
  refine ⟨filter_append_map_gate ownerID pfx changes.delete,
    filter_append_map_gate ownerID pfx changes.updateOld,
    filter_append_map_gate ownerID pfx changes.updateNew, rfl, ?_⟩
  intro r hr
  obtain ⟨e, -, hre⟩ := List.mem_map.mp hr
  rw [← hre, claimOwner]
  exact lookupLabel_setLabel_self _ _ _

def txtEpOwned : Endpoint := ⟨"a.example.org", ["1.2.3.4"], "A", 0, [("owner", "me")]⟩

def txtEpNew : Endpoint := ⟨"b.example.org", ["5.6.7.8"], "A", 0, []⟩

def txtFixtureChanges : DnsChanges := ⟨[txtEpNew], [], [], [txtEpOwned]⟩

theorem txt_apply_changes_ownership_gate_witness :
    (lookupLabel txtEpOwned.labels OwnerLabelKey = "me" ∨
      ∃ e ∈ (txtApplyChanges "me" "txt." txtFixtureChanges).delete,
        lookupLabel e.labels OwnerLabelKey = "me" ∧ txtEpOwned = synthTXT "txt." e) ∧
    lookupLabel (claimOwner "me" txtEpNew).labels OwnerLabelKey = "me" := by
  have h := txt_apply_changes_ownership_gate "me" "txt." txtFixtureChanges
  exact ⟨h.1 txtEpOwned (by decide), h.2.2.2.2 (claimOwner "me" txtEpNew) (by decide)⟩

/-- A TXT record whose value is not a valid heritage string. -/
def opaqueTXT : Endpoint := ⟨"foo", ["garbage"], "TXT", 0, []⟩

/-- A valid ownership marker whose mapped endpoint name collides with
`opaqueTXT`'s name under prefix `txt.`. -/
def markerTXT : Endpoint :=
  ⟨"txt.foo", ["\"heritage=external-dns,external-dns/owner=alice\""], "TXT", 0, []⟩

/-- Claim C7 counterexample: the opaque TXT at `foo` fails heritage parsing
and is passed through, but `Records()` then attaches the label bag of the
parsed marker `txt.foo` to it — the returned endpoint carries
`labels.owner = alice`, not the empty label bag the claim states, so it can
become owned (and deletable through the ownership gate). -/
theorem txt_opaque_txt_can_become_owned :
    parseHeritage (opaqueTXT.targets.headD "") = none ∧
    txtRecords "txt." [opaqueTXT, markerTXT] =
      [⟨"foo", ["garbage"], "TXT", 0, [("owner", "alice")]⟩] := by
  exact ⟨by decide, by decide⟩

theorem txtPartStep_mono (pfx : String) (acc : List Endpoint × List (String × Labels))
    (rec : Endpoint) (x : Endpoint) (hx : x ∈ acc.1) : x ∈ (txtPartStep pfx acc rec).1 := by
  rw [txtPartStep]
  by_cases ht : (rec.recordType != RecordTypeTXT) = true
  · rw [if_pos ht]
    exact List.mem_append_left _ hx
  · rw [if_neg ht]
    cases hp : parseHeritage (rec.targets.headD "") with
    | none => exact List.mem_append_left _ hx
    | some labels => exact hx

theorem txtPartition_foldl_mono (pfx : String) (records : List Endpoint)
    (acc : List Endpoint × List (String × Labels)) (x : Endpoint) (hx : x ∈ acc.1) :
    x ∈ (records.foldl (txtPartStep pfx) acc).1 := by
  induction records generalizing acc with
  | nil => exact hx
  | cons rec rest ih => exact ih _ (txtPartStep_mono pfx acc rec x hx)

/-- A TXT record that fails heritage parsing ends up in the pass-through list
of the partition pass. -/
theorem mem_txtPartition_fst (pfx : String) (records : List Endpoint)
    (acc : List Endpoint × List (String × Labels)) (r : Endpoint) (hmem : r ∈ records)
    (htxt : r.recordType = RecordTypeTXT)
    (hfail : parseHeritage (r.targets.headD "") = none) :
    r ∈ (records.foldl (txtPartStep pfx) acc).1 := by
  induction records generalizing acc with
  | nil => cases hmem
  | cons rec rest ih =>
    rcases List.mem_cons.mp hmem with heq | hmem'
    · subst heq
      have hstep : r ∈ (txtPartStep pfx acc r).1 := by
        unfold txtPartStep
        have ht : ¬ ((r.recordType != RecordTypeTXT) = true) := by
          rw [htxt]
          simp
        rw [if_neg ht, hfail]
        exact List.mem_append_right _ (by simp)
      exact txtPartition_foldl_mono pfx rest (txtPartStep pfx acc r) r hstep
    · exact ih (txtPartStep pfx acc rec) hmem'

/-- Claim C7 (amended): a TXT record whose first target fails heritage parsing
is neither dropped nor an error: it is returned as a plain endpoint, with an
empty label bag provided no successfully parsed ownership TXT maps to its
name; carrying no owner it never passes the registry's ownership gate
(`filterOwnedRecords`) for any nonempty owner id, so the registry never
deletes it on its own account. -/
theorem txt_opaque_passthrough_amended (pfx : String) (records : List Endpoint)
    (r : Endpoint) (hmem : r ∈ records) (htxt : r.recordType = RecordTypeTXT)
    (hfail : parseHeritage (r.targets.headD "") = none)
    (hnoadopt : assocLookup (txtPartition pfx records).2 r.dnsName = none) :
    { r with labels := [] } ∈ txtRecords pfx records ∧
    (∀ ownerID, ownerID ≠ "" → ∀ L : List Endpoint,
      { r with labels := [] } ∉ filterOwnedRecords ownerID L) := by
  constructor
  · rw [txtRecords]
    refine List.mem_map.mpr ⟨r, ?_, ?_⟩
    · rw [txtPartition]
      exact mem_txtPartition_fst pfx records ([], []) r hmem htxt hfail
    · rw [hnoadopt]
      rfl
  · intro ownerID hne L hmem'
    have hb := List.of_mem_filter hmem'
    apply hne
    have h2 : ("" : String) = ownerID := by simpa [lookupLabel] using hb
    exact h2.symm

theorem txt_opaque_passthrough_amended_witness :
    ({ opaqueTXT with labels := [] } ∈ txtRecords "txt." [opaqueTXT]) ∧
    ({ opaqueTXT with labels := [] } ∉ filterOwnedRecords "me" [opaqueTXT]) := by
  have h := txt_opaque_passthrough_amended "txt." [opaqueTXT] opaqueTXT (by decide) rfl
    (by decide) (by decide)
  exact ⟨h.1, h.2 "me" (by decide) [opaqueTXT]⟩

/-! ## Source aggregator (`source/source.go`, `source/service.go`)

The cluster client, node and service objects are embedded as plain values;
the kubernetes label-selector machinery is modelled from the spec
(equality-requirement selectors).  The aggregator's in-place cluster write
(`updateExternalIPs`) only fails on cluster-API errors, which are outside the
embedding; it does not affect the returned setting. -/

def controllerAnnotationKey : String := "external-ips.alpha.openfresh.github.io/controller"

def hostnameAnnotationKey : String := "external-ips.alpha.openfresh.github.io/hostname"

def selectorAnnotationKey : String := "external-ips.alpha.openfresh.github.io/selector"

def maxipsAnnotationKey : String := "external-ips.alpha.openfresh.github.io/maxips"

def ttlAnnotationKey : String := "external-ips.alpha.openfresh.github.io/ttl"

def ttlMinimum : Int := 1

/-- Embeds `math.MaxUint32`. -/
def ttlMaximum : Int := 4294967295

/-- Go map lookup `v, exists := m[k]`. -/
def annLookup? (m : Labels) (k : String) : Option String :=
  match m with
  | [] => none
  | (k', v) :: rest => if k' = k then some v else annLookup? rest k

/-- Models Go `strconv.ParseInt(s, 10, 64)`: optional sign, nonempty decimal
digits, 64-bit range check. -/
def parseInt64 (s : String) : Option Int :=
  let core : List Char → Option Int := fun digits =>
    if digits.isEmpty then none
    else if digits.all Char.isDigit then
      some ((digits.foldl (fun acc c => acc * 10 + (c.toNat - '0'.toNat)) 0 : Nat) : Int)
    else none
  match s.data with
  | '+' :: rest =>
    match core rest with
    | some v => if v > 2 ^ 63 - 1 then none else some v
    | none => none
  | '-' :: rest =>
    match core rest with
    | some v => if v > 2 ^ 63 then none else some (-v)
    | none => none
  | l =>
    match core l with
    | some v => if v > 2 ^ 63 - 1 then none else some v
    | none => none

/-- Embeds `getTTLFromAnnotations`: `(ttl, errored)`; parse failure or out-of-range
yields the unconfigured TTL 0 together with an error (logged as a warning by
`generateEndpoint`). -/
def getTTLFromAnnotations (annotations : Labels) : Int × Bool :=
  match annLookup? annotations ttlAnnotationKey with
  | none => (0, false)
  | some s =>
    match parseInt64 s with
    | none => (0, true)
    | some v => if v < ttlMinimum ∨ v > ttlMaximum then (0, true) else (v, false)

/-- Embeds `getHostnamesFromAnnotations`: strip spaces, split on commas; absent
annotation yields the empty list. -/
def getHostnamesFromAnnotations (annotations : Labels) : List String :=
  match annLookup? annotations hostnameAnnotationKey with
  | none => []
  | some s => splitOnChar ',' ⟨s.data.filter (fun c => !(c == ' '))⟩

/-- Modelled from the spec: a parsed label selector — a conjunction of
`key=value` requirements (the kubernetes selector machinery is absent from
the sources). -/
def parseSelectorToks : List String → Option (List (String × String))
  | [] => some []
  | tok :: rest =>
    match splitOnChar '=' tok with
    | [k, v] =>
      if k == "" then none
      else
        match parseSelectorToks rest with
        | some sel => some ((k, v) :: sel)
        | none => none
    | _ => none

def parseSelector (s : String) : Option (List (String × String)) :=
  parseSelectorToks (splitOnChar ',' s)

def selectorMatches (sel : List (String × String)) (lbls : Labels) : Bool :=
  sel.all fun p => lookupLabel lbls p.1 == p.2

/-- Embeds `getSelectorFromAnnotations`: outer `none` embeds the parse error; inner
`none` means the annotation is absent (match everything). -/
def getSelectorFromAnnotations (annotations : Labels) :
    Option (Option (List (String × String))) :=
  match annLookup? annotations selectorAnnotationKey with
  | none => some none
  | some s =>
    match parseSelector s with
    | none => none
    | some sel => some (some sel)

/-- Embeds `getMaxIPsFromAnnotations`: absent annotation means 0 (unbounded); a
malformed integer is an error. -/
def getMaxIPsFromAnnotations (annotations : Labels) : Option Int :=
  match annLookup? annotations maxipsAnnotationKey with
  | none => some 0
  | some s => parseInt64 s

structure KServicePort where
  protocol : String
  port : Int
deriving DecidableEq, Repr

/-- The slice of a kubernetes service the aggregator reads. -/
structure KService where
  name : String
  nspace : String
  annotations : Labels
  ports : List KServicePort
  externalIPs : List String
deriving DecidableEq, Repr

/-- The slice of a kubernetes node the aggregator reads; addresses are typed
`(type, address)` pairs with types `ExternalIP` / `InternalIP`. -/
structure KNode where
  name : String
  creationTimestamp : Int
  labels : Labels
  providerID : String
  addresses : List (String × String)
deriving DecidableEq, Repr

/-- The per-node selection loop of `extractNodeInfo`: accumulate the external
IPs, internal IPs and provider id of every node matching the selector, and
break once `maxips > 0` nodes have been selected (the bound is checked after
each node, matching or not). -/
def selectLoop (sel : Option (List (String × String))) (maxips : Int) :
    List KNode → Int → List String × List String × List String →
      List String × List String × List String
  | [], _, acc => acc
  | node :: rest, selected, acc =>
    let ok := match sel with
      | none => true
      | some s => selectorMatches s node.labels
    let exts := if ok then
        acc.1 ++ node.addresses.filterMap
          (fun a => if a.1 == "ExternalIP" then some a.2 else none)
      else acc.1
    let ints := if ok then
        acc.2.1 ++ node.addresses.filterMap
          (fun a => if a.1 == "InternalIP" then some a.2 else none)
      else acc.2.1
    let ids := if ok then acc.2.2 ++ [node.providerID] else acc.2.2
    let selected := if ok then selected + 1 else selected
    if maxips > 0 ∧ selected ≥ maxips then (exts, ints, ids)
    else selectLoop sel maxips rest selected (exts, ints, ids)

/-- Embeds `extractNodeInfo`: parse selector and maxips (either failing fails the
whole setting), walk the sorted nodes, and sort the collected IP lists. -/
def extractNodeInfo (svc : KService) (nodes : List KNode) :
    Option (List String × List String × List String) :=
  match getSelectorFromAnnotations svc.annotations with
  | none => none
  | some sel =>
    match getMaxIPsFromAnnotations svc.annotations with
    | none => none
    | some maxips =>
      let r := selectLoop sel maxips nodes 0 ([], [], [])
      some (sortStrings r.1, sortStrings r.2.1, r.2.2)

/-- Embeds `generateEndpoint`: trim one trailing dot, take the TTL (a parse error is
only logged — the endpoint is still produced with the unconfigured TTL 0),
record type A, fresh empty labels. -/
def generateEndpoint (svc : KService) (hostname : String) (nodeTargets : List String) :
    Endpoint :=
  ⟨strTrimSuffix "." hostname, nodeTargets, RecordTypeA,
   (getTTLFromAnnotations svc.annotations).1, []⟩

/-- Embeds `inboundRules` of the service source: lower-cased protocols defaulting to
`tcp`, rule-set named `<svc>[.<namespace>].<clusterName>` with the namespace
segment omitted when empty or `default`. -/
def inboundRulesOf (svc : KService) (providerIDs : List String) (clusterName : String) :
    InboundRules :=
  let rules := svc.ports.map fun port =>
    let protocol := toLowerStr port.protocol
    let protocol := if protocol == "" then "tcp" else protocol
    InboundRule.mk protocol port.port
  let name := svc.name ++
    (if svc.nspace ≠ "default" ∧ svc.nspace.length > 0 then "." ++ svc.nspace else "") ++
    "." ++ clusterName
  ⟨name, rules, providerIDs⟩

/-- Modelled from the spec: `filterByAnnotations` — an empty filter returns
the original list; otherwise keep services whose annotations satisfy the
parsed selector (kubernetes selector machinery absent from the sources). -/
def filterByAnnotations (annotationFilter : String) (services : List KService) :
    Option (List KService) :=
  if annotationFilter = "" then some services
  else
    match parseSelector annotationFilter with
    | none => none
    | some sel => some (services.filter fun svc => selectorMatches sel svc.annotations)

/-- The two-field `setting.ExternalIPSetting` that `source/service.go` fills
(`Endpoints`, `InboundRules`). -/
structure SourceSetting where
  endpoints : List Endpoint
  inboundRules : List InboundRules
deriving DecidableEq, Repr

def resourceOf (svc : KService) : String := "service/" ++ svc.nspace ++ "/" ++ svc.name

/-- Embeds `setResourceLabel`: stamp the service's resource back-reference onto a
list of endpoints. -/
def setResourceLabelAll (svc : KService) (eps : List Endpoint) : List Endpoint :=
  eps.map fun ep =>
    { ep with labels := setLabel ep.labels ResourceLabelKey (resourceOf svc) }

/-- The service loop of `serviceSource.ExternalIPSetting`.  NOTE the source
calls `sc.setResourceLabel(svc, setting.Endpoints)` on the endpoints
accumulated from earlier services and only then appends this service's
endpoints; the embedding keeps that order verbatim. -/
def serviceLoop (clusterName : String) (nodes : List KNode) :
    List KService → SourceSetting → Option SourceSetting
  | [], acc => some acc
  | svc :: rest, acc =>
    let hostnameList := getHostnamesFromAnnotations svc.annotations
    if hostnameList.length = 0 then serviceLoop clusterName nodes rest acc
    else
      match extractNodeInfo svc nodes with
      | none => none
      | some info =>
        let svcEndpoints := hostnameList.map fun h => generateEndpoint svc h info.1
        let ibr := inboundRulesOf svc info.2.2 clusterName
        serviceLoop clusterName nodes rest
          ⟨setResourceLabelAll svc acc.endpoints ++ svcEndpoints,
           acc.inboundRules ++ [ibr]⟩

def insertNode (n : KNode) : List KNode → List KNode
  | [] => [n]
  | m :: rest =>
    if n.creationTimestamp ≤ m.creationTimestamp then n :: m :: rest
    else m :: insertNode n rest

/-- Nodes sorted ascending by creation timestamp (the source uses Go's
unstable `sort.Slice` over `Before`; the embedding fixes the tie order to a
stable one). -/
def sortNodes (nodes : List KNode) : List KNode := nodes.foldr insertNode []

/-- Embeds `serviceSource.ExternalIPSetting`: filter services by annotations, sort
nodes by creation time, then run the per-service loop. -/
def externalIPSetting (clusterName annotationFilter : String)
    (services : List KService) (nodes : List KNode) : Option SourceSetting :=
  match filterByAnnotations annotationFilter services with
  | none => none
  | some filtered => serviceLoop clusterName (sortNodes nodes) filtered ⟨[], []⟩

/-- A hostname-annotated service in namespace `testing`. -/
def svcFoo : KService :=
  ⟨"foo", "testing", [(hostnameAnnotationKey, "foo.example.org.")], [⟨"udp", 5000⟩], []⟩

/-- A second hostname-annotated service, processed before `svcFoo`. -/
def svcBadTTL : KService :=
  ⟨"badttl", "testing",
   [(hostnameAnnotationKey, "badttl.example.org."), (ttlAnnotationKey, "notanumber")],
   [⟨"tcp", 80⟩], []⟩

/-- A service whose selector annotation does not parse. -/
def svcBadSel : KService :=
  ⟨"bad", "testing",
   [(hostnameAnnotationKey, "bad.example.org."), (selectorAnnotationKey, "a=b=c")],
   [], []⟩

def node1 : KNode :=
  ⟨"node1", 1, [("kops.k8s.io/instancegroup", "general")], "abc",
   [("ExternalIP", "10.9.8.7"), ("InternalIP", "1.2.3.4")]⟩

/-- Claim C4: every endpoint is claimed to carry
`labels.resource = service/<ns>/<name>` of its own service.  The source labels
the endpoints accumulated from *earlier* services before appending the
current service's endpoints, so a single service's endpoint carries no
resource label at all, and with two services the first service's endpoint is
stamped with the second service's resource.  Both are computed here on the
repository's own fixture shapes, evidencing the code bug (the in-source test
`TestResourceLabelIsSet` asserts the label but passes vacuously — its fixture
has no hostname annotation and emits no endpoints). -/
theorem source_resource_label_misapplied :
    (externalIPSetting "cl.kube.io" "" [svcFoo] [node1] =
      some ⟨[⟨"foo.example.org", ["10.9.8.7"], "A", 0, []⟩],
            [⟨"foo.testing.cl.kube.io", [⟨"udp", 5000⟩], ["abc"]⟩]⟩) ∧
    lookupLabel ([] : Labels) ResourceLabelKey ≠ "service/testing/foo" ∧
    (externalIPSetting "cl.kube.io" "" [svcBadTTL, svcFoo] [node1] =
      some ⟨[⟨"badttl.example.org", ["10.9.8.7"], "A", 0,
               [("resource", "service/testing/foo")]⟩,
             ⟨"foo.example.org", ["10.9.8.7"], "A", 0, []⟩],
            [⟨"badttl.testing.cl.kube.io", [⟨"tcp", 80⟩], ["abc"]⟩,
             ⟨"foo.testing.cl.kube.io", [⟨"udp", 5000⟩], ["abc"]⟩]⟩) := by
  exact ⟨by decide, by decide, by decide⟩

/-- Claim C9 counterexample: a malformed `selector` annotation on one service
makes the whole `ExternalIPSetting` call return an error — the other
service's endpoints are not returned, contradicting the claim that a
malformed annotation fails only that service's contribution. -/
theorem source_malformed_selector_fails_tick :
    externalIPSetting "cl.kube.io" "" [svcBadSel, svcFoo] [node1] = none := by
  decide

/-- The service loop only fails through `extractNodeInfo`, i.e. through a
selector or maxips annotation that does not parse. -/
theorem serviceLoop_isSome (clusterName : String) (nodes : List KNode)
    (svcs : List KService) (acc : SourceSetting)
    (hsel : ∀ svc ∈ svcs, getSelectorFromAnnotations svc.annotations ≠ none)
    (hmax : ∀ svc ∈ svcs, getMaxIPsFromAnnotations svc.annotations ≠ none) :
    ∃ out, serviceLoop clusterName nodes svcs acc = some out := by
  induction svcs generalizing acc with
  | nil => exact ⟨acc, rfl⟩
  | cons svc rest ih =>
    have hsel' : ∀ s ∈ rest, getSelectorFromAnnotations s.annotations ≠ none :=
      fun s hs => hsel s (List.mem_cons_of_mem _ hs)
    have hmax' : ∀ s ∈ rest, getMaxIPsFromAnnotations s.annotations ≠ none :=
      fun s hs => hmax s (List.mem_cons_of_mem _ hs)
    simp only [serviceLoop]
    by_cases hh : (getHostnamesFromAnnotations svc.annotations).length = 0
    · rw [if_pos hh]
      exact ih acc hsel' hmax'
    · rw [if_neg hh]
      have hinfo : ∃ info, extractNodeInfo svc nodes = some info := by
        rw [extractNodeInfo]
        cases hs : getSelectorFromAnnotations svc.annotations with
        | none => exact absurd hs (hsel svc (List.mem_cons_self _ _))
        | some sel =>
          cases hm : getMaxIPsFromAnnotations svc.annotations with
          | none => exact absurd hm (hmax svc (List.mem_cons_self _ _))
          | some maxips => exact ⟨_, rfl⟩
      obtain ⟨info, hinfo⟩ := hinfo
      rw [hinfo]
      exact ih _ hsel' hmax'

/-- Claim C9 (amended): a malformed `ttl` annotation is warn-only — it never
fails the tick and the affected service's endpoint is still emitted with the
unconfigured TTL; the aggregator succeeds (with an empty annotation filter)
whenever every service's `selector` and `maxips` annotations parse, while a
malformed `selector` or `maxips` fails the whole tick, as the counterexample
shows. -/
theorem source_ttl_warn_only_selector_maxips_fatal :
    (∀ (clusterName : String) (services : List KService) (nodes : List KNode),
      (∀ svc ∈ services, getSelectorFromAnnotations svc.annotations ≠ none) →
      (∀ svc ∈ services, getMaxIPsFromAnnotations svc.annotations ≠ none) →
      ∃ out, externalIPSetting clusterName "" services nodes = some out) ∧
    (externalIPSetting "cl.kube.io" "" [svcBadTTL, svcFoo] [node1] =
      some ⟨[⟨"badttl.example.org", ["10.9.8.7"], "A", 0,
               [("resource", "service/testing/foo")]⟩,
             ⟨"foo.example.org", ["10.9.8.7"], "A", 0, []⟩],
            [⟨"badttl.testing.cl.kube.io", [⟨"tcp", 80⟩], ["abc"]⟩,
             ⟨"foo.testing.cl.kube.io", [⟨"udp", 5000⟩], ["abc"]⟩]⟩) := by
  constructor
  · intro clusterName services nodes hsel hmax
    rw [externalIPSetting]
    rw [show filterByAnnotations "" services = some services from by
      rw [filterByAnnotations]; simp]
    exact serviceLoop_isSome clusterName (sortNodes nodes) services ⟨[], []⟩ hsel hmax
  · decide

theorem source_ttl_warn_only_selector_maxips_fatal_witness :
    ∃ out, externalIPSetting "cl.kube.io" "" [svcFoo] [node1] = some out :=
  source_ttl_warn_only_selector_maxips_fatal.1 "cl.kube.io" [svcFoo] [node1]
    (by decide) (by decide)

/-! ## Controller (`controller/controller.go`) -/

/-- One provider apply performed by a reconciliation tick. -/
inductive ApplyEvent
  | fw (changes : FwChanges)
  | dns (changes : DnsChanges)
  | eip (changes : EipChanges)
deriving DecidableEq, Repr

def ApplyEvent.isEip : ApplyEvent → Bool
  | .eip _ => true
  | _ => false

/-- The apply sequence of `Controller.RunOnce` on its successful path.  The
reads (`Registry.Records()`, `FwRegistry.Rules()`, the source's
`ExternalIPSetting`) are the inputs; the firewall plan is calculated and
applied, then the DNS plan under the configured policy.  The controller in
the sources declares no ExtIP registry field and performs no ExtIP read or
apply — its own package test and `main` construct the controller with an
`EipRegistry` field this struct does not have. -/
def runOnceApplies (records : List Endpoint) (rules : List InboundRules)
    (desiredEndpoints : List Endpoint) (desiredRules : List InboundRules)
    (policy : Policy) : List ApplyEvent :=
  [ApplyEvent.fw (fwCalculate rules desiredRules),
   ApplyEvent.dns (dnsCalculate [policy] records desiredEndpoints)]

/-- Current DNS records of the repository's `TestRunOnce`. -/
def trRecords : List Endpoint :=
  [⟨"update-record", ["8.8.8.8"], "", 0, []⟩, ⟨"delete-record", ["4.3.2.1"], "", 0, []⟩]

/-- Desired DNS endpoints of `TestRunOnce`. -/
def trDesiredEndpoints : List Endpoint :=
  [⟨"create-record", ["1.2.3.4"], "", 0, []⟩, ⟨"update-record", ["8.8.4.4"], "", 0, []⟩]

/-- Current firewall rule-sets of `TestRunOnce`. -/
def trRules : List InboundRules :=
  [⟨"update-rule", [⟨"udp", 5000⟩], ["abc", "zyx"]⟩,
   ⟨"delete-rule", [⟨"tcp", 80⟩], ["def", "opq"]⟩]

/-- Desired firewall rule-sets of `TestRunOnce`. -/
def trDesiredRules : List InboundRules :=
  [⟨"create-rule", [⟨"udp", 9900⟩], ["bbc", "zyx"]⟩,
   ⟨"update-rule", [⟨"udp", 9800⟩], ["abc", "zyx"]⟩]

/-- Claim C2: a tick is claimed to read the current service external-IPs,
compute and apply the ExtIP plan, with applies ordered firewall → ExtIP →
DNS.  Computed on the repository's own `TestRunOnce` fixture, `RunOnce`
performs exactly a firewall apply followed by a DNS apply and no ExtIP apply
at all — the controller in the sources has no ExtIP step (evidencing the code
bug: the test and `main` both require an `EipRegistry` field the struct does
not declare, and the test expects ExtIP update pairs to be applied). -/
theorem controller_runonce_no_extip_apply :
    runOnceApplies trRecords trRules trDesiredEndpoints trDesiredRules Policy.sync =
      [ApplyEvent.fw
        ⟨[⟨"create-rule", [⟨"udp", 9900⟩], ["bbc", "zyx"]⟩], [], [],
         [⟨"delete-rule", [⟨"tcp", 80⟩], ["def", "opq"]⟩],
         [⟨"bbc", "create-rule"⟩, ⟨"zyx", "create-rule"⟩],
         [⟨"def", "delete-rule"⟩, ⟨"opq", "delete-rule"⟩]⟩,
       ApplyEvent.dns
        ⟨[⟨"create-record", ["1.2.3.4"], "", 0, []⟩],
         [⟨"update-record", ["8.8.8.8"], "", 0, []⟩],
         [⟨"update-record", ["8.8.4.4"], "", 0, [("owner", "")]⟩],
         [⟨"delete-record", ["4.3.2.1"], "", 0, []⟩]⟩] ∧
    (runOnceApplies trRecords trRules trDesiredEndpoints trDesiredRules
      Policy.sync).all (fun ev => !ev.isEip) = true := by
  exact ⟨by decide, by decide⟩

/-! ## ExtIP provider (`extip/provider/provider.go`) -/

/-- The cluster state the ExtIP provider manipulates: the listed services,
keyed by name (`Get` finds the first match; `Update` replaces it). -/
def getService (cluster : List KService) (name : String) : Option KService :=
  cluster.find? fun s => s.name == name

def putService (cluster : List KService) (svc : KService) : List KService :=
  match cluster with
  | [] => []
  | s :: rest => if s.name == svc.name then svc :: rest else s :: putService rest svc

/-- Embeds `ProviderImpl.ApplyChanges`: for each record of `changes.UpdateNew`, get
the service by name (an error aborts), set its `spec.externalIPs`, and — when
not in dry-run — write it back.  `changes.UpdateOld` is never read. -/
def eipApplyLoop (dryRun : Bool) : List ExtIP → List KService → Option (List KService)
  | [], cluster => some cluster
  | e :: rest, cluster =>
    match getService cluster e.svcName with
    | none => none
    | some svc =>
      let svc := { svc with externalIPs := e.extIPs }
      eipApplyLoop dryRun rest (if dryRun then cluster else putService cluster svc)

def eipApplyChanges (dryRun : Bool) (cluster : List KService) (changes : EipChanges) :
    Option (List KService) :=
  eipApplyLoop dryRun changes.updateNew cluster

/-- Claim C10: the outcome of the ExtIP provider's `ApplyChanges` — the
resulting cluster state or error — depends only on `UpdateNew`; two change
sets agreeing on `UpdateNew` produce identical results whatever their
`UpdateOld` lists. -/
theorem eip_apply_ignores_update_old (dryRun : Bool) (cluster : List KService)
    (c1 c2 : EipChanges) (h : c1.updateNew = c2.updateNew) :
    eipApplyChanges dryRun cluster c1 = eipApplyChanges dryRun cluster c2 := by
  rw [eipApplyChanges, eipApplyChanges, h]

theorem eip_apply_ignores_update_old_witness :
    eipApplyChanges false [⟨"svc", "default", [], [], ["1.2.3.4"]⟩]
      ⟨[⟨"", "old-a", ["9.9.9.9"]⟩], [⟨"", "svc", ["5.6.7.8"]⟩]⟩ =
    eipApplyChanges false [⟨"svc", "default", [], [], ["1.2.3.4"]⟩]
      ⟨[⟨"", "old-b", ["8.8.8.8"]⟩, ⟨"", "old-c", []⟩], [⟨"", "svc", ["5.6.7.8"]⟩]⟩ :=
  eip_apply_ignores_update_old false [⟨"svc", "default", [], [], ["1.2.3.4"]⟩]
    ⟨[⟨"", "old-a", ["9.9.9.9"]⟩], [⟨"", "svc", ["5.6.7.8"]⟩]⟩
    ⟨[⟨"", "old-b", ["8.8.8.8"]⟩, ⟨"", "old-c", []⟩], [⟨"", "svc", ["5.6.7.8"]⟩]⟩
    rfl
